import Mathlib

/-!
Shallow embedding of the cheque-amount converter (num2trad-cheque).

The repository has two JavaScript implementations of the converter:
 * the core file (namespace `Main` below): `convertSection`, `convertInteger`,
   `convertToChequeFormat` with maximum 999999999999.99;
 * the CSV test harness (namespace `Csv` below): its own inline copy with a
   different big-number assembly, a different glyph for the digit 3 (參 vs 叁),
   an explicit "both fractional digits zero" branch, and maximum 99999.99.

Modelling decisions, each marked at the definition it concerns:
 * JavaScript strings are modelled as `List Char` (every glyph used is a
   single UTF-16 code unit, so indexing agrees);
 * the JS number `parseFloat(numStr)` is modelled exactly by its value in
   cents (`centsOf`): every input accepted by the format pattern has at most
   two fractional digits, so its exact value is `k / 100` with `k : Nat`
   (plus a sign); for such grid values with the 12-digit bound, rounding to
   IEEE double is strictly monotone and fixes the threshold literal, so the
   comparisons `num < 0`, `num > 999999999999.99`, `num >= 100000` and
   `num === 0` in the source coincide with the exact comparisons used here
   (`-0` compares equal to `0` and is not `< 0`, which the model reflects by
   comparing the magnitude, see `convertToChequeFormat`);
 * the three regex cleanup passes are written as linear scans with the same
   non-overlapping left-to-right semantics as `String.replace` with a global
   regex: `/零+/g → 零` collapses maximal runs, `/零([萬億])/g → $1` deletes a
   零 directly before 萬 or 億 without rescanning the replacement, `/零+$/ → ''`
   deletes the trailing run of 零;
 * `while` loops with a decreasing numeric state are written with an explicit
   fuel argument (the initial number bounds the iteration count), so that all
   definitions reduce by kernel evaluation.
-/

/-- A digit character `'0'..'9'` to its value, as JS `parseInt` does digit-wise. -/
def digitVal (c : Char) : Nat := c.toNat - 48

/-- The decimal character of a digit value below 10. -/
def digitChar (d : Nat) : Char := Char.ofNat (48 + d)

/-- Models the stripping regex `/[,\s]/g`: commas and whitespace are removed.
`\s` is restricted to the common whitespace characters; no claim involves the
exotic Unicode spaces. -/
def isSkippable (c : Char) : Bool :=
  c = ',' || c = ' ' || c = '\t' || c = '\n' || c = '\r'

def stripChars (l : List Char) : List Char := l.filter (fun c => !isSkippable c)

/-- Base-`b` digits of `n`, least significant first, via fuel (structural, so
the kernel can evaluate it); for `n = 0` the list is empty. -/
def radixLEAux (b : Nat) : Nat → Nat → List Nat
  | 0, _ => []
  | _, 0 => []
  | fuel + 1, n + 1 => ((n + 1) % b) :: radixLEAux b fuel ((n + 1) / b)

def radixLE (b n : Nat) : List Nat := radixLEAux b n n

/-- Decimal digits of `n`, least significant first; `digitsLE 0 = []`. -/
def digitsLE (n : Nat) : List Nat := radixLE 10 n

/-- Decimal digits, most significant first: the JS `num.toString()` digit list. -/
def digitsBE (n : Nat) : List Nat := (digitsLE n).reverse

/-- Base-10000 groups of `n`, least significant first: the group decomposition
`num % 10000`, `⌊num / 10000⌋ % 10000`, … used by both `convertInteger`s. -/
def sectionsLE (n : Nat) : List Nat := radixLE 10000 n

/-- Value of a little-endian base-`b` digit list. -/
def fromRadixLE (b : Nat) : List Nat → Nat
  | [] => 0
  | d :: rest => d + b * fromRadixLE b rest

/-- Value of a most-significant-first digit list (the accumulator fold JS
`parseInt` performs on a digit string). -/
def fromBE (ds : List Nat) : Nat := ds.foldl (fun a d => a * 10 + d) 0

/-- Value of a little-endian base-10000 group list. -/
def fromSecs (secs : List Nat) : Nat := fromRadixLE 10000 secs

/-- JS `parseInt` on a pure digit string. -/
def natOfDigits (ds : List Char) : Nat := fromBE (ds.map digitVal)

/-- No adjacent pair of characters satisfies `bad`. -/
def noPair (bad : Char → Char → Bool) : List Char → Bool
  | c1 :: c2 :: rest => !bad c1 c2 && noPair bad (c2 :: rest)
  | _ => true

def zzBad (a b : Char) : Bool := a = '零' && b = '零'

def zuBad (a b : Char) : Bool := a = '零' && (b = '萬' || b = '億')

def bothBad (a b : Char) : Bool := a = '零' && (b = '零' || b = '萬' || b = '億')

/-- No two consecutive 零 glyphs. -/
def zeroPairFree (l : List Char) : Bool := noPair zzBad l

/-- No 零 glyph directly before a 萬 or 億 glyph. -/
def zeroUnitFree (l : List Char) : Bool := noPair zuBad l

/-- Both conditions at once. -/
def chainOk (l : List Char) : Bool := noPair bothBad l

/-- Pass (a), `result.replace(/零+/g, '零')`: a maximal run of 零 becomes one 零.
The flag records whether the previous kept character closed a 零 run. -/
def collapseZerosAux : Bool → List Char → List Char
  | _, [] => []
  | prevZ, c :: rest =>
    if c = '零' then
      if prevZ then collapseZerosAux true rest
      else '零' :: collapseZerosAux true rest
    else c :: collapseZerosAux false rest

def collapseZeros (l : List Char) : List Char := collapseZerosAux false l

/-- Pass (b), `result.replace(/零([萬億])/g, '$1')`: each 零 standing directly
before 萬 or 億 is deleted; matches are found left to right in the input and
the replacement is not rescanned, exactly as the JS global replace. -/
def dropZeroBeforeUnit : List Char → List Char
  | [] => []
  | c :: rest =>
    if c = '零' then
      match rest with
      | [] => ['零']
      | c2 :: rest2 =>
        if c2 = '萬' ∨ c2 = '億' then c2 :: dropZeroBeforeUnit rest2
        else '零' :: dropZeroBeforeUnit (c2 :: rest2)
    else c :: dropZeroBeforeUnit rest

/-- Pass (c), `result.replace(/零+$/, '')`: the trailing run of 零 is deleted. -/
def dropTrailingZeros (l : List Char) : List Char :=
  (l.reverse.dropWhile (fun c => c = '零')).reverse

/-- The three cleanup passes of `convertInteger`, in source order. -/
def cleanup (l : List Char) : List Char :=
  dropTrailingZeros (dropZeroBeforeUnit (collapseZeros l))

/-- `const units = ['', '拾', '佰', '仟']`, indexed by intra-group position.
An index of 4 or more reads past the array in JS; it never occurs for the
group values 0..9999 the converters feed in, and is mapped to `[]` here. -/
def units : Nat → List Char
  | 0 => []
  | 1 => ['拾']
  | 2 => ['佰']
  | 3 => ['仟']
  | _ + 4 => []

/-- `const bigUnits = ['', '萬', '億', '兆']`, indexed by group number. An index
of 4 or more reads past the array in JS; it never occurs below the magnitude
limits, and is mapped to `[]` here. -/
def bigUnits : Nat → List Char
  | 0 => []
  | 1 => ['萬']
  | 2 => ['億']
  | 3 => ['兆']
  | _ + 4 => []

/-- The digit loop of `convertSection`, shared by both implementations up to
the digit glyph table `g`.  `ds` is the remaining most-significant-first digit
list, the `Bool` is `zeroFlag`, `acc` is `result`.  The positional unit of the
digit under scrutiny is `units[len - 1 - i]`, i.e. `units rest.length`. -/
def sectionAux (g : Nat → Char) : List Nat → Bool → List Char → List Char
  | [], _, acc => acc
  | d :: rest, zeroFlag, acc =>
    if d = 0 then sectionAux g rest true acc
    else sectionAux g rest false
      ((if zeroFlag ∧ acc ≠ [] then acc ++ ['零'] else acc) ++ g d :: units rest.length)

/-- `convertSection` with digit glyph table `g`: 0 yields the empty string,
otherwise the digit loop over the decimal string of `num`. -/
def convertSectionG (g : Nat → Char) (num : Nat) : List Char :=
  if num = 0 then [] else sectionAux g (digitsBE num) false []

/-- The numeric-format pattern and split, `/^-?\d+(\.\d{0,2})?$/` followed by
`numStr.split('.')`: an optional minus sign, a nonempty digit run, optionally a
dot and zero to two digits.  Returns (sign seen, integer digits, fractional
digits if a dot was present). -/
def parseAmount (l : List Char) : Option (Bool × List Char × Option (List Char)) :=
  let neg : Bool := l.head? = some '-'
  let l1 := if l.head? = some '-' then l.tail else l
  let ds := l1.takeWhile Char.isDigit
  let rest := l1.dropWhile Char.isDigit
  if ds = [] then none
  else
    match rest with
    | [] => some (neg, ds, none)
    | c :: fs =>
      if c = '.' ∧ fs.length ≤ 2 ∧ fs.all Char.isDigit then some (neg, ds, some fs)
      else none

/-- The magnitude contributed by the fractional digit list, in cents: the
fractional value of `parseFloat` times 100 (exact, at most two digits). -/
def fracCents : Option (List Char) → Nat
  | none => 0
  | some [] => 0
  | some [a] => digitVal a * 10
  | some (a :: b :: _) => digitVal a * 10 + digitVal b

/-- The parsed magnitude in cents: the exact value of `parseFloat(numStr)`
(ignoring the sign) times 100. -/
def centsOf (ds : List Char) (frac : Option (List Char)) : Nat :=
  natOfDigits ds * 100 + fracCents frac

namespace Main

/-- `digitMap` of the core file: `'3'` maps to 叁.  Digit values above 9 never
occur (JS would yield `undefined`); they are mapped to 零 here. -/
def digitMap (d : Nat) : Char :=
  ['零', '壹', '貳', '叁', '肆', '伍', '陸', '柒', '捌', '玖'].getD d '零'

def convertSection (num : Nat) : List Char := convertSectionG digitMap num

/-- One iteration body of the `while (num > 0)` loop of `convertInteger`:
build the group text, with a 零 in front when a higher group remains and the
group value is below 1000; an all-zero group with a higher group remaining
contributes its bare big unit. -/
def convertIntegerStep (sec nextNum unitIndex : Nat) (result : List Char) : List Char :=
  if 0 < sec then
    if 0 < nextNum ∧ sec < 1000 then
      ('零' :: (convertSection sec ++ bigUnits unitIndex)) ++ result
    else (convertSection sec ++ bigUnits unitIndex) ++ result
  else if 0 < nextNum then bigUnits unitIndex ++ result
  else result

/-- The `while (num > 0)` loop of `convertInteger`, with fuel (the starting
number bounds the number of iterations, since `num` shrinks by `/ 10000`). -/
def convertIntegerAux : Nat → Nat → Nat → List Char → List Char
  | 0, _, _, result => result
  | fuel + 1, num, unitIndex, result =>
    if num = 0 then result
    else convertIntegerAux fuel (num / 10000) (unitIndex + 1)
      (convertIntegerStep (num % 10000) (num / 10000) unitIndex result)

/-- `convertInteger` of the core file, as a character list: 0 is 零, otherwise
the group loop followed by the three regex cleanup passes. -/
def convertIntegerL (num : Nat) : List Char :=
  if num = 0 then ['零'] else cleanup (convertIntegerAux num num 0 [])

def convertInteger (num : Nat) : String := String.mk (convertIntegerL num)

/-- `convertToChequeFormat` of the core file.  The branch structure follows the
source: strip, empty check, pattern check, `num < 0` (true of the parsed value
only when the magnitude is nonzero, since `-0 < 0` is false in JS),
`num > 999999999999.99`, `num === 0`, then integer conversion plus the
fractional branch.  Note the source has no "both fractional digits zero"
branch: a present but all-zero fraction appends nothing after 圓. -/
def convertToChequeFormat (numStr : String) : String :=
  let l := stripChars numStr.data
  if l = [] then "請輸入金額"
  else
    match parseAmount l with
    | none => "輸入格式錯誤（請輸入有效數字）"
    | some (neg, ds, frac) =>
      if neg = true ∧ 0 < centsOf ds frac then "不支持負數"
      else if 99999999999999 < centsOf ds frac then "金額過大（最大支持 999,999,999,999.99）"
      else if centsOf ds frac = 0 then "零圓整"
      else
        let base := convertIntegerL (natOfDigits ds) ++ ['圓']
        match frac with
        | none => String.mk (base ++ ['整'])
        | some [] => String.mk (base ++ ['整'])
        | some (f1 :: fs) =>
          let fen := fs.headD '0'
          if f1 ≠ '0' then
            String.mk (base ++ digitMap (digitVal f1) :: '角' ::
              (if fen ≠ '0' then [digitMap (digitVal fen), '分'] else []))
          else
            String.mk (base ++ (if fen ≠ '0' then ['零', digitMap (digitVal fen), '分'] else []))

end Main

namespace Csv

/-- `digitMap` of the test harness: `'3'` maps to 參 (not 叁). -/
def digitMap (d : Nat) : Char :=
  ['零', '壹', '貳', '參', '肆', '伍', '陸', '柒', '捌', '玖'].getD d '零'

def convertSection (num : Nat) : List Char := convertSectionG digitMap num

/-- The inner `for (j = i - 1; j >= 0; j--)` scan: some group strictly below
index `i` is nonzero. -/
def hasNonZeroAfter (secs : List Nat) (i : Nat) : Bool :=
  (secs.take i).any (fun s => 0 < s)

/-- One iteration of the harness `convertInteger` loop at index `i` (groups are
little-endian, the loop walks from the top index down, appending to `result`). -/
def csvStep (secs : List Nat) (i : Nat) (result : List Char) : List Char :=
  let sec := secs.getD i 0
  if 0 < sec then
    (if i < secs.length - 1 ∧ sec < 1000 ∧ result ≠ [] then result ++ ['零'] else result)
      ++ convertSection sec ++ bigUnits i
  else
    if 0 < i ∧ result ≠ [] ∧ hasNonZeroAfter secs i = true ∧
        0 < secs.getD (i - 1) 0 ∧ secs.getD (i - 1) 0 < 1000 then
      result ++ ['零']
    else result

/-- The harness loop `for (i = sections.length - 1; i >= 0; i--)`. -/
def csvAux (secs : List Nat) : Nat → List Char → List Char
  | 0, result => csvStep secs 0 result
  | i + 1, result => csvAux secs i (csvStep secs (i + 1) result)

/-- `convertInteger` of the test harness, as a character list. -/
def convertIntegerL (num : Nat) : List Char :=
  if num = 0 then ['零']
  else cleanup (csvAux (sectionsLE num) ((sectionsLE num).length - 1) [])

def convertInteger (num : Nat) : String := String.mk (convertIntegerL num)

/-- `convertToChequeFormat` of the test harness: same stripping, pattern and
negative check as the core file, but the magnitude check is `num >= 100000`
with its own message, and the fractional branch starts with an explicit
"both digits zero" case that appends 整. -/
def convertToChequeFormat (numStr : String) : String :=
  let l := stripChars numStr.data
  if l = [] then "請輸入金額"
  else
    match parseAmount l with
    | none => "輸入格式錯誤（請輸入有效數字）"
    | some (neg, ds, frac) =>
      if neg = true ∧ 0 < centsOf ds frac then "不支持負數"
      else if 10000000 ≤ centsOf ds frac then "超過最大支持金額（99999.99）"
      else if centsOf ds frac = 0 then "零圓整"
      else
        let base := convertIntegerL (natOfDigits ds) ++ ['圓']
        match frac with
        | none => String.mk (base ++ ['整'])
        | some [] => String.mk (base ++ ['整'])
        | some (f1 :: fs) =>
          let fen := fs.headD '0'
          if f1 = '0' ∧ fen = '0' then String.mk (base ++ ['整'])
          else if f1 ≠ '0' then
            String.mk (base ++ digitMap (digitVal f1) :: '角' ::
              (if fen ≠ '0' then [digitMap (digitVal fen), '分'] else []))
          else
            String.mk (base ++ (if fen ≠ '0' then ['零', digitMap (digitVal fen), '分'] else []))

end Csv

/-- The decimal string of `n`, as `String(n)` / the canonical integer input. -/
def natToString (n : Nat) : String :=
  if n = 0 then "0" else String.mk ((digitsBE n).map digitChar)

/-- The canonical input string of an amount of `c` cents: the integer part in
decimal, followed by a dot and exactly two fractional digits when the
fractional part is nonzero. -/
def amountToString (c : Nat) : String :=
  if c % 100 = 0 then natToString (c / 100)
  else String.mk ((natToString (c / 100)).data ++
    '.' :: [digitChar (c % 100 / 10), digitChar (c % 100 % 10)])

/-- The characters `convertSection` can emit (core file glyph table). -/
def secChars : List Char :=
  ['零', '壹', '貳', '叁', '肆', '伍', '陸', '柒', '捌', '玖', '拾', '佰', '仟']

/-- The characters the integer conversion of the core file can emit. -/
def intChars : List Char := secChars ++ ['萬', '億', '兆']

/-- The characters a successful conversion of the core file can emit. -/
def okChars : List Char := intChars ++ ['圓', '角', '分', '整']

/-- Value of a nonzero digit glyph of the core file's table (inverse of
`Main.digitMap` on 1..9); anything else is 0. -/
def gval (c : Char) : Nat :=
  if c = '壹' then 1 else if c = '貳' then 2 else if c = '叁' then 3
  else if c = '肆' then 4 else if c = '伍' then 5 else if c = '陸' then 6
  else if c = '柒' then 7 else if c = '捌' then 8 else if c = '玖' then 9 else 0

/-- Decoder for the section strings of the core file: skip a 零, then read a
digit glyph; a following 拾/佰/仟 fixes its positional weight, no following
unit means the ones place. -/
def parseSec : List Char → Nat
  | [] => 0
  | [c] => if c = '零' then 0 else gval c
  | c :: u :: rest2 =>
    if c = '零' then parseSec (u :: rest2)
    else if u = '仟' then gval c * 1000 + parseSec rest2
    else if u = '佰' then gval c * 100 + parseSec rest2
    else if u = '拾' then gval c * 10 + parseSec rest2
    else gval c + parseSec (u :: rest2)

namespace Main

/-- Accumulator-free form of the digit loop of `convertSection` (core glyph
table), valid when the accumulated result is already nonempty (or the digit
list starts with a nonzero digit): a pending-zero flag emits one 零 before the
next nonzero digit. -/
def renderAux : List Nat → Bool → List Char
  | [], _ => []
  | d :: rest, flag =>
    if d = 0 then renderAux rest true
    else (if flag then ['零'] else []) ++ digitMap d :: (units rest.length ++ renderAux rest false)

/-- The characters one iteration of the `convertInteger` loop puts in front of
the previous result: `hasHigher` is `nextNum > 0`. -/
def contrib (s : Nat) (hasHigher : Bool) (idx : Nat) : List Char :=
  if 0 < s then
    if hasHigher = true ∧ s < 1000 then '零' :: (convertSection s ++ bigUnits idx)
    else convertSection s ++ bigUnits idx
  else if hasHigher = true then bigUnits idx else []

/-- The whole group-loop output (before cleanup) for the little-endian group
list `secs` starting at group index `idx`: highest group leftmost. -/
def assembleRev : List Nat → Nat → List Char
  | [], _ => []
  | s :: rest, idx => assembleRev rest (idx + 1) ++ contrib s (!rest.isEmpty) idx

/-- The suffix the core file appends after 圓 for an amount with `k` cents of
fraction (`0 ≤ k < 100`), on the canonical input of `amountToString`. -/
def fracL (k : Nat) : List Char :=
  if k = 0 then ['整']
  else if k / 10 ≠ 0 then
    digitMap (k / 10) :: '角' :: (if k % 10 ≠ 0 then [digitMap (k % 10), '分'] else [])
  else ['零', digitMap (k % 10), '分']

end Main

/-! ### Base decomposition lemmas -/

theorem radixLEAux_congr (b : Nat) (hb : 2 ≤ b) :
    ∀ f1 f2 n, n ≤ f1 → n ≤ f2 → radixLEAux b f1 n = radixLEAux b f2 n := by
  intro f1
  induction f1 with
  | zero =>
    intro f2 n h1 _
    interval_cases n
    cases f2 <;> simp [radixLEAux]
  | succ f1 ih =>
    intro f2 n h1 h2
    match n with
    | 0 => cases f2 <;> simp [radixLEAux]
    | n + 1 =>
      match f2 with
      | 0 => omega
      | f2 + 1 =>
        have hdiv : (n + 1) / b < n + 1 := Nat.div_lt_self (Nat.succ_pos n) (by omega)
        simp only [radixLEAux]
        rw [ih f2 ((n + 1) / b) (by omega) (by omega)]

theorem radixLE_zero (b : Nat) : radixLE b 0 = [] := rfl

theorem radixLE_succ (b n : Nat) (hb : 2 ≤ b) (h : 0 < n) :
    radixLE b n = n % b :: radixLE b (n / b) := by
  match n, h with
  | n + 1, _ =>
    have hdiv : (n + 1) / b < n + 1 := Nat.div_lt_self (Nat.succ_pos n) (by omega)
    show radixLEAux b (n + 1) (n + 1) = _
    simp only [radixLEAux]
    rw [radixLEAux_congr b hb n ((n + 1) / b) ((n + 1) / b) (by omega) (by omega)]
    rfl

theorem radixLE_eq_nil_iff (b n : Nat) (hb : 2 ≤ b) : radixLE b n = [] ↔ n = 0 := by
  constructor
  · intro h
    by_contra hn
    rw [radixLE_succ b n hb (Nat.pos_of_ne_zero hn)] at h
    exact List.cons_ne_nil _ _ h
  · intro h; subst h; rfl

theorem radixLE_mem_lt (b : Nat) (hb : 2 ≤ b) :
    ∀ n d, d ∈ radixLE b n → d < b := by
  intro n
  induction n using Nat.strong_induction_on with
  | _ n ih =>
    intro d hd
    rcases Nat.eq_zero_or_pos n with h0 | hpos
    · subst h0; simp [radixLE_zero] at hd
    · rw [radixLE_succ b n hb hpos] at hd
      rcases List.mem_cons.1 hd with h | h
      · subst h; exact Nat.mod_lt n (by omega)
      · exact ih (n / b) (Nat.div_lt_self hpos (by omega)) d h

theorem fromRadixLE_radixLE (b : Nat) (hb : 2 ≤ b) :
    ∀ n, fromRadixLE b (radixLE b n) = n := by
  intro n
  induction n using Nat.strong_induction_on with
  | _ n ih =>
    rcases Nat.eq_zero_or_pos n with h0 | hpos
    · subst h0; rfl
    · rw [radixLE_succ b n hb hpos]
      show n % b + b * fromRadixLE b (radixLE b (n / b)) = n
      rw [ih (n / b) (Nat.div_lt_self hpos (by omega))]
      exact Nat.mod_add_div n b

theorem radixLE_getLast_ne_zero (b : Nat) (hb : 2 ≤ b) :
    ∀ n, 0 < n → (radixLE b n).getLast? ≠ some 0 := by
  intro n
  induction n using Nat.strong_induction_on with
  | _ n ih =>
    intro hpos
    rw [radixLE_succ b n hb hpos]
    rcases Nat.eq_zero_or_pos (n / b) with h0 | hdivpos
    · rw [h0, radixLE_zero]
      have hlt : n < b := by
        by_contra hge
        have := Nat.div_pos (Nat.le_of_not_lt hge) (by omega)
        omega
      simp [List.getLast?, Nat.mod_eq_of_lt hlt]
      omega
    · have hne : radixLE b (n / b) ≠ [] := fun hnil => by
        have := (radixLE_eq_nil_iff b (n / b) hb).1 hnil
        omega
      obtain ⟨c, l, hcl⟩ := List.exists_cons_of_ne_nil hne
      rw [hcl, List.getLast?_cons_cons]
      rw [← hcl]
      exact ih (n / b) (Nat.div_lt_self hpos (by omega)) hdivpos

theorem radixLE_length_le (b : Nat) (hb : 2 ≤ b) :
    ∀ n k, n < b ^ k → (radixLE b n).length ≤ k := by
  intro n
  induction n using Nat.strong_induction_on with
  | _ n ih =>
    intro k hk
    rcases Nat.eq_zero_or_pos n with h0 | hpos
    · subst h0; simp [radixLE_zero]
    · match k with
      | 0 => simp at hk; omega
      | k + 1 =>
        rw [radixLE_succ b n hb hpos]
        simp only [List.length_cons]
        have hdk : n / b < b ^ k := by
          rw [Nat.div_lt_iff_lt_mul (by omega : 0 < b)]
          calc n < b ^ (k + 1) := hk
            _ = b ^ k * b := by ring
        have := ih (n / b) (Nat.div_lt_self hpos (by omega)) k hdk
        omega

theorem radixLE_drop (b : Nat) (hb : 2 ≤ b) :
    ∀ k n, (radixLE b n).drop k = radixLE b (n / b ^ k) := by
  intro k
  induction k with
  | zero => intro n; simp
  | succ k ih =>
    intro n
    rcases Nat.eq_zero_or_pos n with h0 | hpos
    · subst h0; simp [radixLE_zero, Nat.zero_div]
    · rw [radixLE_succ b n hb hpos, List.drop_succ_cons, ih (n / b),
        Nat.div_div_eq_div_mul]
      congr 1
      rw [pow_succ]
      ring_nf

/-! ### Adjacent-pair predicate toolbox -/

theorem noPair_cons_cons (bad : Char → Char → Bool) (a b : Char) (l : List Char) :
    noPair bad (a :: b :: l) = (!bad a b && noPair bad (b :: l)) := rfl

theorem noPair_tail (bad : Char → Char → Bool) (c : Char) (l : List Char)
    (h : noPair bad (c :: l) = true) : noPair bad l = true := by
  match l with
  | [] => rfl
  | b :: r =>
    rw [noPair_cons_cons, Bool.and_eq_true] at h
    exact h.2

theorem noPair_cons (bad : Char → Char → Bool) (c : Char) (l : List Char)
    (hhead : ∀ d, l.head? = some d → bad c d = false)
    (h : noPair bad l = true) : noPair bad (c :: l) = true := by
  match l with
  | [] => rfl
  | b :: r =>
    rw [noPair_cons_cons, Bool.and_eq_true]
    refine ⟨?_, h⟩
    rw [hhead b rfl]
    rfl

theorem noPair_head (bad : Char → Char → Bool) (c d : Char) (l : List Char)
    (h : noPair bad (c :: l) = true) (hd : l.head? = some d) : bad c d = false := by
  match l with
  | b :: r =>
    simp only [List.head?_cons, Option.some.injEq] at hd
    subst hd
    rw [noPair_cons_cons, Bool.and_eq_true] at h
    have := h.1
    revert this
    cases bad c b <;> simp

theorem noPair_append (bad : Char → Char → Bool) :
    ∀ a b : List Char, noPair bad a = true → noPair bad b = true →
      (∀ x y, a.getLast? = some x → b.head? = some y → bad x y = false) →
      noPair bad (a ++ b) = true := by
  intro a
  induction a with
  | nil => intro b _ hb _; simpa using hb
  | cons x r ih =>
    intro b hx hb hcross
    match r with
    | [] =>
      refine noPair_cons bad x b ?_ hb
      intro d hd
      exact hcross x d rfl hd
    | y :: r2 =>
      simp only [List.cons_append]
      rw [noPair_cons_cons, Bool.and_eq_true]
      rw [noPair_cons_cons, Bool.and_eq_true] at hx
      refine ⟨hx.1, ?_⟩
      have := ih b hx.2 hb (fun u v hu hv => hcross u v (by rwa [List.getLast?_cons_cons]) hv)
      simpa using this

theorem noPair_append_left (bad : Char → Char → Bool) :
    ∀ a b : List Char, noPair bad (a ++ b) = true → noPair bad a = true := by
  intro a
  induction a with
  | nil => intro _ _; rfl
  | cons x r ih =>
    intro b h
    match r with
    | [] => rfl
    | y :: r2 =>
      simp only [List.cons_append] at h
      rw [noPair_cons_cons, Bool.and_eq_true] at h
      rw [noPair_cons_cons, Bool.and_eq_true]
      refine ⟨h.1, ih b ?_⟩
      simpa using h.2

theorem noPair_imp (bad1 bad2 : Char → Char → Bool)
    (himp : ∀ a b, bad1 a b = true → bad2 a b = true) :
    ∀ l, noPair bad2 l = true → noPair bad1 l = true := by
  intro l
  induction l with
  | nil => intro _; rfl
  | cons x r ih =>
    intro h
    match r with
    | [] => rfl
    | y :: r2 =>
      rw [noPair_cons_cons, Bool.and_eq_true] at h ⊢
      refine ⟨?_, ih h.2⟩
      have h2 : bad2 x y = false := by simpa using h.1
      have h3 : bad1 x y = false := by
        cases hx : bad1 x y
        · rfl
        · rw [himp x y hx] at h2; simp at h2
      simp [h3]

theorem bothBad_false_left (c d : Char) (hc : c ≠ '零') : bothBad c d = false := by
  simp [bothBad, hc]

theorem bothBad_false_right (c d : Char) (h0 : d ≠ '零') (h1 : d ≠ '萬') (h2 : d ≠ '億') :
    bothBad c d = false := by
  simp [bothBad, h0, h1, h2]

theorem zeroPairFree_of_chainOk (l : List Char) (h : chainOk l = true) :
    zeroPairFree l = true := by
  refine noPair_imp zzBad bothBad ?_ l h
  intro a b hab
  simp [zzBad] at hab
  simp [bothBad, hab]

theorem zeroUnitFree_of_chainOk (l : List Char) (h : chainOk l = true) :
    zeroUnitFree l = true := by
  refine noPair_imp zuBad bothBad ?_ l h
  intro a b hab
  simp [zuBad] at hab
  rcases hab.2 with h1 | h1 <;> simp [bothBad, hab.1, h1]

theorem noPair_cons_of_ne_zero (bad : Char → Char → Bool)
    (hbad : ∀ c d, c ≠ '零' → bad c d = false)
    (c : Char) (l : List Char) (hc : c ≠ '零') (h : noPair bad l = true) :
    noPair bad (c :: l) = true :=
  noPair_cons bad c l (fun d _ => hbad c d hc) h

/-! ### The three cleanup passes -/

theorem collapseZerosAux_head_true :
    ∀ l : List Char, (collapseZerosAux true l).head? ≠ some '零' := by
  intro l
  induction l with
  | nil => simp [collapseZerosAux]
  | cons c rest ih =>
    by_cases hc : c = '零'
    · subst hc
      rw [show collapseZerosAux true ('零' :: rest) = collapseZerosAux true rest from by
        simp [collapseZerosAux]]
      exact ih
    · rw [show collapseZerosAux true (c :: rest) = c :: collapseZerosAux false rest from by
        simp [collapseZerosAux, hc]]
      simp [hc]

theorem collapseZerosAux_zeroPairFree :
    ∀ (l : List Char) (p : Bool), zeroPairFree (collapseZerosAux p l) = true := by
  intro l
  induction l with
  | nil => intro p; rfl
  | cons c rest ih =>
    intro p
    by_cases hc : c = '零'
    · subst hc
      cases p
      · rw [show collapseZerosAux false ('零' :: rest) = '零' :: collapseZerosAux true rest from by
          simp [collapseZerosAux]]
        refine noPair_cons zzBad '零' _ ?_ (ih true)
        intro d hd
        have hdne : d ≠ '零' := by
          intro he
          subst he
          exact collapseZerosAux_head_true rest hd
        simp [zzBad, hdne]
      · rw [show collapseZerosAux true ('零' :: rest) = collapseZerosAux true rest from by
          simp [collapseZerosAux]]
        exact ih true
    · rw [show collapseZerosAux p (c :: rest) = c :: collapseZerosAux false rest from by
        simp [collapseZerosAux, hc]]
      exact noPair_cons_of_ne_zero zzBad (fun a b ha => by simp [zzBad, ha]) c _ hc (ih false)

theorem collapseZerosAux_id :
    ∀ (l : List Char) (p : Bool), zeroPairFree l = true →
      (p = true → l.head? ≠ some '零') → collapseZerosAux p l = l := by
  intro l
  induction l with
  | nil => intro p _ _; rfl
  | cons c rest ih =>
    intro p h hp
    by_cases hc : c = '零'
    · subst hc
      cases p
      · rw [show collapseZerosAux false ('零' :: rest) = '零' :: collapseZerosAux true rest from by
          simp [collapseZerosAux]]
        congr 1
        refine ih true (noPair_tail zzBad _ _ h) ?_
        intro _ hhead
        have hbad := noPair_head zzBad '零' '零' rest h hhead
        simp [zzBad] at hbad
      · exact absurd (hp rfl) (by simp)
    · rw [show collapseZerosAux p (c :: rest) = c :: collapseZerosAux false rest from by
        simp [collapseZerosAux, hc]]
      congr 1
      exact ih false (noPair_tail zzBad _ _ h) (fun hf => absurd hf (by simp))

theorem collapseZerosAux_mem :
    ∀ (l : List Char) (p : Bool) (x : Char), x ∈ collapseZerosAux p l → x ∈ l := by
  intro l
  induction l with
  | nil => intro p x hx; simp [collapseZerosAux] at hx
  | cons c rest ih =>
    intro p x hx
    by_cases hc : c = '零'
    · subst hc
      cases p
      · rw [show collapseZerosAux false ('零' :: rest) = '零' :: collapseZerosAux true rest from by
          simp [collapseZerosAux]] at hx
        rcases List.mem_cons.1 hx with h | h
        · exact List.mem_cons.2 (Or.inl h)
        · exact List.mem_cons.2 (Or.inr (ih true x h))
      · rw [show collapseZerosAux true ('零' :: rest) = collapseZerosAux true rest from by
          simp [collapseZerosAux]] at hx
        exact List.mem_cons.2 (Or.inr (ih true x hx))
    · rw [show collapseZerosAux p (c :: rest) = c :: collapseZerosAux false rest from by
        simp [collapseZerosAux, hc]] at hx
      rcases List.mem_cons.1 hx with h | h
      · exact List.mem_cons.2 (Or.inl h)
      · exact List.mem_cons.2 (Or.inr (ih false x h))

theorem dropZeroBeforeUnit_cons_ne (c : Char) (rest : List Char) (hc : c ≠ '零') :
    dropZeroBeforeUnit (c :: rest) = c :: dropZeroBeforeUnit rest := by
  rw [dropZeroBeforeUnit.eq_def]
  simp [hc]

theorem dropZeroBeforeUnit_chainOk :
    ∀ l : List Char, zeroPairFree l = true → chainOk (dropZeroBeforeUnit l) = true := by
  intro l
  induction l using dropZeroBeforeUnit.induct with
  | case1 => intro _; rfl
  | case2 => intro _; decide
  | case3 c2 rest2 hu ih =>
    intro h
    have hrest : zeroPairFree rest2 = true :=
      noPair_tail zzBad _ _ (noPair_tail zzBad _ _ h)
    have hc2 : c2 ≠ '零' := by rcases hu with h1 | h1 <;> (subst h1; decide)
    rw [show dropZeroBeforeUnit ('零' :: c2 :: rest2) = c2 :: dropZeroBeforeUnit rest2 from by
      simp [dropZeroBeforeUnit, hu]]
    exact noPair_cons_of_ne_zero bothBad (fun a b ha => bothBad_false_left a b ha)
      c2 _ hc2 (ih hrest)
  | case4 c2 rest2 hu ih =>
    intro h
    have hc2 : c2 ≠ '零' := by
      intro he
      have := noPair_head zzBad '零' c2 (c2 :: rest2) h rfl
      simp [zzBad, he] at this
    have hrest : zeroPairFree (c2 :: rest2) = true := noPair_tail zzBad _ _ h
    have hout := ih hrest
    rw [show dropZeroBeforeUnit ('零' :: c2 :: rest2) =
        '零' :: dropZeroBeforeUnit (c2 :: rest2) from by simp [dropZeroBeforeUnit, hu]]
    refine noPair_cons bothBad '零' _ ?_ hout
    intro d hd
    rw [dropZeroBeforeUnit_cons_ne c2 rest2 hc2] at hd
    simp only [List.head?_cons, Option.some.injEq] at hd
    subst hd
    have h1 : c2 ≠ '萬' := fun he => hu (Or.inl he)
    have h2 : c2 ≠ '億' := fun he => hu (Or.inr he)
    exact bothBad_false_right '零' c2 hc2 h1 h2
  | case5 c rest hc ih =>
    intro h
    rw [dropZeroBeforeUnit_cons_ne c rest hc]
    exact noPair_cons_of_ne_zero bothBad (fun a b ha => bothBad_false_left a b ha)
      c _ hc (ih (noPair_tail zzBad _ _ h))

theorem dropZeroBeforeUnit_id :
    ∀ l : List Char, zeroUnitFree l = true → dropZeroBeforeUnit l = l := by
  intro l
  induction l using dropZeroBeforeUnit.induct with
  | case1 => intro _; rfl
  | case2 => intro _; decide
  | case3 c2 rest2 hu _ =>
    intro h
    have := noPair_head zuBad '零' c2 (c2 :: rest2) h rfl
    simp [zuBad] at this
    rcases hu with h1 | h1
    · exact absurd h1 this.1
    · exact absurd h1 this.2
  | case4 c2 rest2 hu ih =>
    intro h
    rw [show dropZeroBeforeUnit ('零' :: c2 :: rest2) =
        '零' :: dropZeroBeforeUnit (c2 :: rest2) from by simp [dropZeroBeforeUnit, hu]]
    rw [ih (noPair_tail zuBad _ _ h)]
  | case5 c rest hc ih =>
    intro h
    rw [dropZeroBeforeUnit_cons_ne c rest hc, ih (noPair_tail zuBad _ _ h)]

theorem dropZeroBeforeUnit_mem :
    ∀ (l : List Char) (x : Char), x ∈ dropZeroBeforeUnit l → x ∈ l := by
  intro l
  induction l using dropZeroBeforeUnit.induct with
  | case1 => intro x hx; simp [dropZeroBeforeUnit] at hx
  | case2 => intro x hx; simpa [dropZeroBeforeUnit] using hx
  | case3 c2 rest2 hu ih =>
    intro x hx
    rw [show dropZeroBeforeUnit ('零' :: c2 :: rest2) = c2 :: dropZeroBeforeUnit rest2 from by
      simp [dropZeroBeforeUnit, hu]] at hx
    rcases List.mem_cons.1 hx with h | h
    · simp [h]
    · simp [ih x h]
  | case4 c2 rest2 hu ih =>
    intro x hx
    rw [show dropZeroBeforeUnit ('零' :: c2 :: rest2) =
        '零' :: dropZeroBeforeUnit (c2 :: rest2) from by simp [dropZeroBeforeUnit, hu]] at hx
    rcases List.mem_cons.1 hx with h | h
    · simp [h]
    · rcases List.mem_cons.1 (ih x h) with h2 | h2
      · simp [h2]
      · simp [h2]
  | case5 c rest hc ih =>
    intro x hx
    rw [dropZeroBeforeUnit_cons_ne c rest hc] at hx
    rcases List.mem_cons.1 hx with h | h
    · simp [h]
    · simp [ih x h]

theorem dropTrailingZeros_decomp (l : List Char) :
    ∃ t, (∀ x ∈ t, x = '零') ∧ l = dropTrailingZeros l ++ t := by
  refine ⟨(l.reverse.takeWhile (fun c => c = '零')).reverse, ?_, ?_⟩
  · intro x hx
    rw [List.mem_reverse] at hx
    have := List.mem_takeWhile_imp hx
    simpa using this
  · conv_lhs => rw [← List.reverse_reverse l,
      ← List.takeWhile_append_dropWhile (fun c => c = '零') l.reverse]
    rw [List.reverse_append]
    rfl

theorem dropTrailingZeros_noPair (bad : Char → Char → Bool) (l : List Char)
    (h : noPair bad l = true) : noPair bad (dropTrailingZeros l) = true := by
  obtain ⟨t, _, ht⟩ := dropTrailingZeros_decomp l
  rw [ht] at h
  exact noPair_append_left bad _ t h

theorem dropTrailingZeros_getLast (l : List Char) :
    (dropTrailingZeros l).getLast? ≠ some '零' := by
  show ((l.reverse.dropWhile (fun c => c = '零')).reverse).getLast? ≠ some '零'
  rw [List.getLast?_reverse]
  generalize l.reverse = m
  induction m with
  | nil => simp
  | cons c rest ih =>
    by_cases hc : c = '零'
    · rw [List.dropWhile_cons]
      simp only [hc]
      simpa using ih
    · rw [List.dropWhile_cons]
      simp [hc]

theorem dropTrailingZeros_id (l : List Char) (h : l.getLast? ≠ some '零') :
    dropTrailingZeros l = l := by
  have hne : l.reverse.head? ≠ some '零' := by rwa [List.head?_reverse]
  show (l.reverse.dropWhile (fun c => c = '零')).reverse = l
  have : l.reverse.dropWhile (fun c => c = '零') = l.reverse := by
    match hrev : l.reverse with
    | [] => rfl
    | c :: rest =>
      have hc : c ≠ '零' := by
        rw [hrev] at hne
        simpa using hne
      rw [List.dropWhile_cons]
      simp [hc]
  rw [this, List.reverse_reverse]

theorem dropTrailingZeros_mem (l : List Char) (x : Char)
    (hx : x ∈ dropTrailingZeros l) : x ∈ l := by
  have h1 : x ∈ l.reverse.dropWhile (fun c => c = '零') := by
    rw [← List.mem_reverse]
    exact hx
  have h2 := (List.dropWhile_sublist (l := l.reverse) (fun c => c = '零')).subset h1
  rwa [List.mem_reverse] at h2

theorem cleanup_chainOk (l : List Char) : chainOk (cleanup l) = true :=
  dropTrailingZeros_noPair bothBad _
    (dropZeroBeforeUnit_chainOk _ (collapseZerosAux_zeroPairFree l false))

theorem cleanup_getLast (l : List Char) : (cleanup l).getLast? ≠ some '零' :=
  dropTrailingZeros_getLast _

theorem cleanup_id (l : List Char) (h1 : chainOk l = true)
    (h2 : l.getLast? ≠ some '零') : cleanup l = l := by
  show dropTrailingZeros (dropZeroBeforeUnit (collapseZerosAux false l)) = l
  rw [collapseZerosAux_id l false (zeroPairFree_of_chainOk l h1) (fun hf => absurd hf (by simp)),
    dropZeroBeforeUnit_id l (zeroUnitFree_of_chainOk l h1),
    dropTrailingZeros_id l h2]

theorem cleanup_mem (l : List Char) (x : Char) (hx : x ∈ cleanup l) : x ∈ l :=
  collapseZerosAux_mem l false x
    (dropZeroBeforeUnit_mem _ x (dropTrailingZeros_mem _ x hx))

/-! ### Glyph table and positional unit facts -/

theorem digitMap_mem (d : Nat) :
    Main.digitMap d ∈ (['零', '壹', '貳', '叁', '肆', '伍', '陸', '柒', '捌', '玖'] : List Char) := by
  by_cases hd : d < 10
  · interval_cases d <;> decide
  · unfold Main.digitMap
    rw [List.getD_eq_default]
    · decide
    · simpa using Nat.le_of_not_lt hd

theorem digitMap_ne (d : Nat) (c : Char)
    (hc : c ∉ (['零', '壹', '貳', '叁', '肆', '伍', '陸', '柒', '捌', '玖'] : List Char)) :
    Main.digitMap d ≠ c := fun he => hc (he ▸ digitMap_mem d)

theorem digitMap_ne_zero (d : Nat) (h1 : 1 ≤ d) (h2 : d ≤ 9) : Main.digitMap d ≠ '零' := by
  interval_cases d <;> decide

theorem digitMap_mem_secChars (d : Nat) : Main.digitMap d ∈ secChars := by
  have := digitMap_mem d
  simp only [List.mem_cons, List.not_mem_nil, or_false] at this
  rcases this with h | h | h | h | h | h | h | h | h | h <;> (rw [h]; decide)

theorem gval_digitMap (d : Nat) (h1 : 1 ≤ d) (h2 : d ≤ 9) : gval (Main.digitMap d) = d := by
  interval_cases d <;> decide

theorem units_cases (k : Nat) :
    units k = [] ∨ ∃ u, units k = [u] ∧ u ≠ '零' ∧ u ≠ '萬' ∧ u ≠ '億' ∧ u ∈ secChars := by
  match k with
  | 0 => exact Or.inl rfl
  | 1 => exact Or.inr ⟨'拾', rfl, by decide, by decide, by decide, by decide⟩
  | 2 => exact Or.inr ⟨'佰', rfl, by decide, by decide, by decide, by decide⟩
  | 3 => exact Or.inr ⟨'仟', rfl, by decide, by decide, by decide, by decide⟩
  | k + 4 => exact Or.inl rfl

/-! ### The digit loop, accumulator-free -/

theorem sectionAux_eq_render (ds : List Nat) :
    ∀ (flag : Bool) (acc : List Char), acc ≠ [] →
      sectionAux Main.digitMap ds flag acc = acc ++ Main.renderAux ds flag := by
  induction ds with
  | nil => intro flag acc _; simp [sectionAux, Main.renderAux]
  | cons d rest ih =>
    intro flag acc hacc
    by_cases hd : d = 0
    · subst hd
      rw [show sectionAux Main.digitMap (0 :: rest) flag acc =
          sectionAux Main.digitMap rest true acc from by simp [sectionAux]]
      rw [show Main.renderAux (0 :: rest) flag = Main.renderAux rest true from by
        simp [Main.renderAux]]
      exact ih true acc hacc
    · rw [show sectionAux Main.digitMap (d :: rest) flag acc =
          sectionAux Main.digitMap rest false
            ((if flag ∧ acc ≠ [] then acc ++ ['零'] else acc) ++
              Main.digitMap d :: units rest.length) from by simp [sectionAux, hd]]
      rw [show Main.renderAux (d :: rest) flag =
          (if flag then ['零'] else []) ++
            Main.digitMap d :: (units rest.length ++ Main.renderAux rest false) from by
        simp [Main.renderAux, hd]]
      rw [ih false _ (by simp)]
      cases flag <;> simp [hacc, List.append_assoc]

theorem digitsBE_mem_lt (n : Nat) (d : Nat) (hd : d ∈ digitsBE n) : d < 10 := by
  rw [digitsBE, List.mem_reverse] at hd
  exact radixLE_mem_lt 10 (by omega) n d hd

theorem digitsBE_pos (s : Nat) (h : 0 < s) :
    ∃ d rest, digitsBE s = d :: rest ∧ d ≠ 0 ∧ d < 10 ∧ (∀ x ∈ rest, x < 10) := by
  have hne : digitsLE s ≠ [] := by
    intro hnil
    have := (radixLE_eq_nil_iff 10 s (by omega)).1 hnil
    omega
  have hBE : digitsBE s ≠ [] := by
    rw [digitsBE]
    simpa using hne
  obtain ⟨d, rest, hcons⟩ := List.exists_cons_of_ne_nil hBE
  refine ⟨d, rest, hcons, ?_, ?_, ?_⟩
  · have hhead : (digitsBE s).head? = some d := by rw [hcons]; rfl
    rw [digitsBE, List.head?_reverse] at hhead
    have := radixLE_getLast_ne_zero 10 (by omega) s h
    intro he
    rw [he] at hhead
    exact this hhead
  · exact digitsBE_mem_lt s d (by rw [hcons]; simp)
  · intro x hx
    exact digitsBE_mem_lt s x (by rw [hcons]; simp [hx])

theorem convertSection_eq_render (s : Nat) (h : 0 < s) :
    Main.convertSection s = Main.renderAux (digitsBE s) false := by
  obtain ⟨d, rest, hcons, hd0, _, _⟩ := digitsBE_pos s h
  show convertSectionG Main.digitMap s = _
  rw [convertSectionG, if_neg (by omega), hcons]
  rw [show sectionAux Main.digitMap (d :: rest) false [] =
      sectionAux Main.digitMap rest false (Main.digitMap d :: units rest.length) from by
    simp [sectionAux, hd0]]
  rw [show Main.renderAux (d :: rest) false =
      Main.digitMap d :: (units rest.length ++ Main.renderAux rest false) from by
    simp [Main.renderAux, hd0]]
  rw [sectionAux_eq_render rest false _ (by simp)]
  simp

theorem renderAux_chainOk :
    ∀ (ds : List Nat) (flag : Bool), (∀ d ∈ ds, d < 10) →
      chainOk (Main.renderAux ds flag) = true := by
  intro ds
  induction ds with
  | nil => intro flag _; rfl
  | cons d rest ih =>
    intro flag hmem
    have hrestmem : ∀ x ∈ rest, x < 10 := fun x hx => hmem x (List.mem_cons.2 (Or.inr hx))
    by_cases hd : d = 0
    · subst hd
      rw [show Main.renderAux (0 :: rest) flag = Main.renderAux rest true from by
        simp [Main.renderAux]]
      exact ih true hrestmem
    · have hd9 : 1 ≤ d ∧ d ≤ 9 := by
        have := hmem d (List.mem_cons.2 (Or.inl rfl))
        omega
      have hdm : Main.digitMap d ≠ '零' := digitMap_ne_zero d hd9.1 hd9.2
      rw [show Main.renderAux (d :: rest) flag =
          (if flag then ['零'] else []) ++
            Main.digitMap d :: (units rest.length ++ Main.renderAux rest false) from by
        simp [Main.renderAux, hd]]
      have htail : chainOk (units rest.length ++ Main.renderAux rest false) = true := by
        rcases units_cases rest.length with hu | ⟨u, hu, hu0, _, _, _⟩
        · rw [hu]
          simpa using ih false hrestmem
        · rw [hu]
          rw [show (([u] : List Char) ++ Main.renderAux rest false) =
            u :: Main.renderAux rest false from by simp]
          exact noPair_cons_of_ne_zero bothBad (fun a b ha => bothBad_false_left a b ha)
            u _ hu0 (ih false hrestmem)
      have hmid : chainOk (Main.digitMap d ::
          (units rest.length ++ Main.renderAux rest false)) = true :=
        noPair_cons_of_ne_zero bothBad (fun a b ha => bothBad_false_left a b ha)
          _ _ hdm htail
      cases flag
      · simpa using hmid
      · rw [show ((if true then ['零'] else []) : List Char) = ['零'] from rfl]
        rw [show (['零'] : List Char) ++ Main.digitMap d ::
            (units rest.length ++ Main.renderAux rest false) =
          '零' :: Main.digitMap d ::
            (units rest.length ++ Main.renderAux rest false) from by simp]
        refine noPair_cons bothBad '零' _ ?_ hmid
        intro c hc
        simp only [List.head?_cons, Option.some.injEq] at hc
        subst hc
        exact bothBad_false_right '零' _ hdm (digitMap_ne d '萬' (by decide))
          (digitMap_ne d '億' (by decide))

theorem renderAux_getLast :
    ∀ (ds : List Nat) (flag : Bool), (∀ d ∈ ds, d < 10) →
      (Main.renderAux ds flag).getLast? ≠ some '零' := by
  intro ds
  induction ds with
  | nil => intro flag _; simp [Main.renderAux]
  | cons d rest ih =>
    intro flag hmem
    have hrestmem : ∀ x ∈ rest, x < 10 := fun x hx => hmem x (List.mem_cons.2 (Or.inr hx))
    by_cases hd : d = 0
    · subst hd
      rw [show Main.renderAux (0 :: rest) flag = Main.renderAux rest true from by
        simp [Main.renderAux]]
      exact ih true hrestmem
    · have hd9 : 1 ≤ d ∧ d ≤ 9 := by
        have := hmem d (List.mem_cons.2 (Or.inl rfl))
        omega
      rw [show Main.renderAux (d :: rest) flag =
          (if flag then ['零'] else []) ++
            Main.digitMap d :: (units rest.length ++ Main.renderAux rest false) from by
        simp [Main.renderAux, hd]]
      rw [List.getLast?_append_of_ne_nil _ (by simp)]
      by_cases hrend : Main.renderAux rest false = []
      · rw [hrend]
        rcases units_cases rest.length with hu | ⟨u, hu, hu0, _, _, _⟩
        · rw [hu]
          simp
          exact digitMap_ne_zero d hd9.1 hd9.2
        · rw [hu]
          rw [show (Main.digitMap d :: (([u] : List Char) ++ [])) =
            [Main.digitMap d] ++ [u] from by simp]
          rw [List.getLast?_append_of_ne_nil _ (by simp)]
          simpa using hu0
      · rw [show (Main.digitMap d :: (units rest.length ++ Main.renderAux rest false)) =
          (Main.digitMap d :: units rest.length) ++ Main.renderAux rest false from by simp]
        rw [List.getLast?_append_of_ne_nil _ hrend]
        exact ih false hrestmem

theorem renderAux_mem :
    ∀ (ds : List Nat) (flag : Bool) (x : Char), x ∈ Main.renderAux ds flag →
      x ∈ secChars := by
  intro ds
  induction ds with
  | nil => intro flag x hx; simp [Main.renderAux] at hx
  | cons d rest ih =>
    intro flag x hx
    by_cases hd : d = 0
    · subst hd
      rw [show Main.renderAux (0 :: rest) flag = Main.renderAux rest true from by
        simp [Main.renderAux]] at hx
      exact ih true x hx
    · rw [show Main.renderAux (d :: rest) flag =
          (if flag then ['零'] else []) ++
            Main.digitMap d :: (units rest.length ++ Main.renderAux rest false) from by
        simp [Main.renderAux, hd]] at hx
      rw [List.mem_append] at hx
      rcases hx with hx | hx
      · cases flag
        · simp at hx
        · simp at hx
          rw [hx]; decide
      · rcases List.mem_cons.1 hx with hx | hx
        · rw [hx]; exact digitMap_mem_secChars d
        · rw [List.mem_append] at hx
          rcases hx with hx | hx
          · rcases units_cases rest.length with hu | ⟨u, hu, _, _, _, humem⟩
            · rw [hu] at hx; simp at hx
            · rw [hu] at hx; simp at hx; rw [hx]; exact humem
          · exact ih false x hx

theorem convertSection_chainOk (s : Nat) : chainOk (Main.convertSection s) = true := by
  rcases Nat.eq_zero_or_pos s with h0 | hpos
  · subst h0; rfl
  · rw [convertSection_eq_render s hpos]
    exact renderAux_chainOk (digitsBE s) false (fun d hd => digitsBE_mem_lt s d hd)

theorem convertSection_zeroPairFree (s : Nat) : zeroPairFree (Main.convertSection s) = true :=
  zeroPairFree_of_chainOk _ (convertSection_chainOk s)

theorem convertSection_getLast (s : Nat) :
    (Main.convertSection s).getLast? ≠ some '零' := by
  rcases Nat.eq_zero_or_pos s with h0 | hpos
  · subst h0; simp [Main.convertSection, convertSectionG]
  · rw [convertSection_eq_render s hpos]
    exact renderAux_getLast (digitsBE s) false (fun d hd => digitsBE_mem_lt s d hd)

theorem convertSection_mem (s : Nat) (x : Char) (hx : x ∈ Main.convertSection s) :
    x ∈ secChars := by
  rcases Nat.eq_zero_or_pos s with h0 | hpos
  · subst h0; simp [Main.convertSection, convertSectionG] at hx
  · rw [convertSection_eq_render s hpos] at hx
    exact renderAux_mem (digitsBE s) false x hx

theorem convertSection_head (s : Nat) (h : 0 < s) :
    ∃ d, 1 ≤ d ∧ d ≤ 9 ∧ (Main.convertSection s).head? = some (Main.digitMap d) := by
  obtain ⟨d, rest, hcons, hd0, hd10, _⟩ := digitsBE_pos s h
  refine ⟨d, by omega, by omega, ?_⟩
  rw [convertSection_eq_render s h, hcons]
  rw [show Main.renderAux (d :: rest) false =
      Main.digitMap d :: (units rest.length ++ Main.renderAux rest false) from by
    simp [Main.renderAux, hd0]]
  rfl

theorem convertSection_ne_nil (s : Nat) (h : 0 < s) : Main.convertSection s ≠ [] := by
  obtain ⟨d, _, _, hd⟩ := convertSection_head s h
  intro he
  rw [he] at hd
  simp at hd

theorem convertSection_head_good (s : Nat) (h : 0 < s) (c : Char)
    (hc : (Main.convertSection s).head? = some c) :
    c ≠ '零' ∧ c ≠ '萬' ∧ c ≠ '億' := by
  obtain ⟨d, hd1, hd9, hd⟩ := convertSection_head s h
  rw [hd] at hc
  simp only [Option.some.injEq] at hc
  subst hc
  exact ⟨digitMap_ne_zero d hd1 hd9, digitMap_ne d '萬' (by decide), digitMap_ne d '億' (by decide)⟩

/-! ### Decoding a section string -/

theorem fromBE_foldl (l : List Nat) :
    ∀ a : Nat, l.foldl (fun x d => x * 10 + d) a = a * 10 ^ l.length + fromBE l := by
  induction l with
  | nil => intro a; simp [fromBE]
  | cons d rest ih =>
    intro a
    show rest.foldl (fun x d => x * 10 + d) (a * 10 + d) = _
    rw [ih (a * 10 + d)]
    have hfr : fromBE (d :: rest) = d * 10 ^ rest.length + fromBE rest := by
      show rest.foldl (fun x d => x * 10 + d) (0 * 10 + d) = _
      rw [ih (0 * 10 + d)]
      ring_nf
    rw [hfr]
    simp [List.length_cons, pow_succ]
    ring

theorem fromBE_cons (d : Nat) (rest : List Nat) :
    fromBE (d :: rest) = d * 10 ^ rest.length + fromBE rest := by
  show rest.foldl (fun x d => x * 10 + d) (0 * 10 + d) = _
  rw [fromBE_foldl rest (0 * 10 + d)]
  ring_nf

theorem fromBE_append_singleton (l : List Nat) (d : Nat) :
    fromBE (l ++ [d]) = 10 * fromBE l + d := by
  show (l ++ [d]).foldl (fun x d => x * 10 + d) 0 = _
  rw [List.foldl_append]
  show fromBE l * 10 + d = _
  ring

theorem fromBE_reverse (le : List Nat) : fromBE le.reverse = fromRadixLE 10 le := by
  induction le with
  | nil => rfl
  | cons d rest ih =>
    rw [List.reverse_cons, fromBE_append_singleton, ih]
    show _ = d + 10 * fromRadixLE 10 rest
    ring

theorem fromBE_digitsBE (n : Nat) : fromBE (digitsBE n) = n := by
  rw [digitsBE, fromBE_reverse]
  exact fromRadixLE_radixLE 10 (by omega) n

theorem parseSec_cons_zero (t : List Char) : parseSec ('零' :: t) = parseSec t := by
  match t with
  | [] => decide
  | u :: t2 => simp [parseSec]

theorem parseSec_renderAux :
    ∀ (ds : List Nat) (flag : Bool), (∀ d ∈ ds, d < 10) → ds.length ≤ 4 →
      parseSec (Main.renderAux ds flag) = fromBE ds := by
  intro ds
  induction ds with
  | nil => intro flag _ _; rfl
  | cons d rest ih =>
    intro flag hmem hlen
    have hrestmem : ∀ x ∈ rest, x < 10 := fun x hx => hmem x (List.mem_cons.2 (Or.inr hx))
    have hrestlen : rest.length ≤ 3 := by
      have := hlen
      simp [List.length_cons] at this
      omega
    by_cases hd : d = 0
    · subst hd
      rw [show Main.renderAux (0 :: rest) flag = Main.renderAux rest true from by
        simp [Main.renderAux]]
      rw [ih true hrestmem (by omega), fromBE_cons]
      simp
    · have hd9 : 1 ≤ d ∧ d ≤ 9 := by
        have := hmem d (List.mem_cons.2 (Or.inl rfl))
        omega
      have hdm : Main.digitMap d ≠ '零' := digitMap_ne_zero d hd9.1 hd9.2
      have hgv : gval (Main.digitMap d) = d := gval_digitMap d hd9.1 hd9.2
      rw [show Main.renderAux (d :: rest) flag =
          (if flag then ['零'] else []) ++
            Main.digitMap d :: (units rest.length ++ Main.renderAux rest false) from by
        simp [Main.renderAux, hd]]
      have hcore : parseSec (Main.digitMap d ::
          (units rest.length ++ Main.renderAux rest false)) = fromBE (d :: rest) := by
        rw [fromBE_cons]
        match hu : rest.length, hrestlen with
        | 0, _ =>
          have hrestnil : rest = [] := List.length_eq_zero.1 hu
          subst hrestnil
          rw [show Main.renderAux [] false = [] from rfl]
          simp only [units, List.nil_append, List.append_nil]
          show parseSec [Main.digitMap d] = d * 10 ^ 0 + fromBE []
          simp [parseSec, hdm, hgv, fromBE]
        | 1, _ =>
          simp only [units, List.cons_append, List.singleton_append]
          show parseSec (Main.digitMap d :: '拾' :: Main.renderAux rest false) = _
          rw [show parseSec (Main.digitMap d :: '拾' :: Main.renderAux rest false) =
              gval (Main.digitMap d) * 10 + parseSec (Main.renderAux rest false) from by
            simp [parseSec, hdm]]
          rw [hgv, ih false hrestmem (by omega)]
          norm_num
        | 2, _ =>
          simp only [units, List.cons_append, List.singleton_append]
          show parseSec (Main.digitMap d :: '佰' :: Main.renderAux rest false) = _
          rw [show parseSec (Main.digitMap d :: '佰' :: Main.renderAux rest false) =
              gval (Main.digitMap d) * 100 + parseSec (Main.renderAux rest false) from by
            simp [parseSec, hdm]]
          rw [hgv, ih false hrestmem (by omega)]
          norm_num
        | 3, _ =>
          simp only [units, List.cons_append, List.singleton_append]
          show parseSec (Main.digitMap d :: '仟' :: Main.renderAux rest false) = _
          rw [show parseSec (Main.digitMap d :: '仟' :: Main.renderAux rest false) =
              gval (Main.digitMap d) * 1000 + parseSec (Main.renderAux rest false) from by
            simp [parseSec, hdm]]
          rw [hgv, ih false hrestmem (by omega)]
          norm_num
      cases flag
      · simpa using hcore
      · rw [show ((if true then ['零'] else []) : List Char) ++
            Main.digitMap d :: (units rest.length ++ Main.renderAux rest false) =
          '零' :: Main.digitMap d ::
            (units rest.length ++ Main.renderAux rest false) from by simp]
        rw [parseSec_cons_zero]
        exact hcore

theorem parseSec_convertSection (s : Nat) (h1 : 0 < s) (h2 : s ≤ 9999) :
    parseSec (Main.convertSection s) = s := by
  rw [convertSection_eq_render s h1]
  rw [parseSec_renderAux (digitsBE s) false (fun d hd => digitsBE_mem_lt s d hd) ?_]
  · exact fromBE_digitsBE s
  · show (digitsLE s).reverse.length ≤ 4
    rw [List.length_reverse]
    exact radixLE_length_le 10 (by omega) s 4 (by omega)

theorem convertSection_inj (a b : Nat) (ha1 : 0 < a) (ha2 : a ≤ 9999)
    (hb1 : 0 < b) (hb2 : b ≤ 9999)
    (h : Main.convertSection a = Main.convertSection b) : a = b := by
  rw [← parseSec_convertSection a ha1 ha2, h, parseSec_convertSection b hb1 hb2]

/-! ### The group loop as a list of contributions -/

theorem sectionsLE_succ (n : Nat) (h : 0 < n) :
    sectionsLE n = (n % 10000) :: sectionsLE (n / 10000) :=
  radixLE_succ 10000 n (by omega) h

theorem sectionsLE_nil_iff (n : Nat) : sectionsLE n = [] ↔ n = 0 :=
  radixLE_eq_nil_iff 10000 n (by omega)

theorem sectionsLE_not_isEmpty (m : Nat) :
    (!(sectionsLE m).isEmpty) = decide (0 < m) := by
  rcases Nat.eq_zero_or_pos m with h0 | hpos
  · subst h0; rfl
  · rw [sectionsLE_succ m hpos]
    simp [hpos]

theorem sectionsLE_mem_lt (n s : Nat) (hs : s ∈ sectionsLE n) : s < 10000 :=
  radixLE_mem_lt 10000 (by omega) n s hs

theorem fromSecs_sectionsLE (n : Nat) : fromSecs (sectionsLE n) = n :=
  fromRadixLE_radixLE 10000 (by omega) n

theorem convertIntegerStep_eq (sec nextNum idx : Nat) (result : List Char) :
    Main.convertIntegerStep sec nextNum idx result =
      Main.contrib sec (decide (0 < nextNum)) idx ++ result := by
  by_cases h1 : 0 < sec
  · by_cases h2 : 0 < nextNum
    · by_cases h3 : sec < 1000 <;>
        simp [Main.convertIntegerStep, Main.contrib, h1, h2, h3]
    · simp [Main.convertIntegerStep, Main.contrib, h1, h2]
  · by_cases h2 : 0 < nextNum <;>
      simp [Main.convertIntegerStep, Main.contrib, h1, h2]

theorem convertIntegerAux_eq :
    ∀ (fuel num idx : Nat) (acc : List Char), num ≤ fuel →
      Main.convertIntegerAux fuel num idx acc =
        Main.assembleRev (sectionsLE num) idx ++ acc := by
  intro fuel
  induction fuel with
  | zero =>
    intro num idx acc h
    interval_cases num
    rfl
  | succ fuel ih =>
    intro num idx acc h
    rcases Nat.eq_zero_or_pos num with h0 | hpos
    · subst h0; rfl
    · have hne : num ≠ 0 := by omega
      rw [show Main.convertIntegerAux (fuel + 1) num idx acc =
          Main.convertIntegerAux fuel (num / 10000) (idx + 1)
            (Main.convertIntegerStep (num % 10000) (num / 10000) idx acc) from by
        simp [Main.convertIntegerAux, hne]]
      have hdiv : num / 10000 ≤ fuel :=
        Nat.le_of_lt_succ (Nat.lt_of_lt_of_le (Nat.div_lt_self hpos (by omega)) h)
      rw [ih (num / 10000) (idx + 1) _ hdiv]
      rw [convertIntegerStep_eq]
      rw [sectionsLE_succ num hpos]
      rw [show Main.assembleRev ((num % 10000) :: sectionsLE (num / 10000)) idx =
          Main.assembleRev (sectionsLE (num / 10000)) (idx + 1) ++
            Main.contrib (num % 10000) (!(sectionsLE (num / 10000)).isEmpty) idx from rfl]
      rw [sectionsLE_not_isEmpty]
      simp [List.append_assoc]

theorem convertIntegerL_cleanup (n : Nat) (h : 0 < n) :
    Main.convertIntegerL n = cleanup (Main.assembleRev (sectionsLE n) 0) := by
  rw [show Main.convertIntegerL n = cleanup (Main.convertIntegerAux n n 0 []) from by
    simp [Main.convertIntegerL]; omega]
  rw [convertIntegerAux_eq n n 0 [] (le_refl n)]
  simp

theorem bigUnits_cases (k : Nat) :
    bigUnits k = [] ∨ ∃ u, bigUnits k = [u] ∧ u ≠ '零' ∧ u ∈ intChars ∧
      (u ≠ '圓' ∧ u ≠ '整' ∧ u ≠ '角' ∧ u ≠ '分') := by
  match k with
  | 0 => exact Or.inl rfl
  | 1 => exact Or.inr ⟨'萬', rfl, by decide, by decide, by decide, by decide, by decide⟩
  | 2 => exact Or.inr ⟨'億', rfl, by decide, by decide, by decide, by decide, by decide⟩
  | 3 => exact Or.inr ⟨'兆', rfl, by decide, by decide, by decide, by decide, by decide⟩
  | k + 4 => exact Or.inl rfl

theorem sectBig_chainOk (s idx : Nat) :
    chainOk (Main.convertSection s ++ bigUnits idx) = true := by
  refine noPair_append bothBad _ _ (convertSection_chainOk s) ?_ ?_
  · rcases bigUnits_cases idx with hu | ⟨u, hu, _, _, _⟩ <;> rw [hu] <;> rfl
  · intro x y hx _
    have hxne : x ≠ '零' := by
      intro he
      rw [he] at hx
      exact convertSection_getLast s hx
    exact bothBad_false_left x y hxne

theorem sectBig_getLast (s idx : Nat) :
    (Main.convertSection s ++ bigUnits idx).getLast? ≠ some '零' := by
  rcases bigUnits_cases idx with hu | ⟨u, hu, hu0, _, _⟩
  · rw [hu]
    simpa using convertSection_getLast s
  · rw [hu, List.getLast?_append_of_ne_nil _ (by simp)]
    simpa using hu0

theorem contrib_chainOk (s : Nat) (hh : Bool) (idx : Nat) :
    chainOk (Main.contrib s hh idx) = true := by
  unfold Main.contrib
  by_cases h1 : 0 < s
  · by_cases h2 : hh = true ∧ s < 1000
    · rw [if_pos h1, if_pos h2]
      refine noPair_cons bothBad '零' _ ?_ (sectBig_chainOk s idx)
      intro c hc
      have hcs : (Main.convertSection s).head? = some c := by
        obtain ⟨d, _, _, hd⟩ := convertSection_head s h1
        rwa [List.head?_append_of_ne_nil _ (convertSection_ne_nil s h1)] at hc
      obtain ⟨g1, g2, g3⟩ := convertSection_head_good s h1 c hcs
      exact bothBad_false_right '零' c g1 g2 g3
    · rw [if_pos h1, if_neg h2]
      exact sectBig_chainOk s idx
  · rw [if_neg h1]
    by_cases h2 : hh = true
    · rw [if_pos h2]
      rcases bigUnits_cases idx with hu | ⟨u, hu, _, _, _⟩ <;> rw [hu] <;> rfl
    · rw [if_neg h2]; rfl

theorem contrib_getLast (s : Nat) (hh : Bool) (idx : Nat) :
    ∀ c, (Main.contrib s hh idx).getLast? = some c → c ≠ '零' := by
  intro c hc
  unfold Main.contrib at hc
  by_cases h1 : 0 < s
  · by_cases h2 : hh = true ∧ s < 1000
    · rw [if_pos h1, if_pos h2] at hc
      rw [show ('零' :: (Main.convertSection s ++ bigUnits idx)).getLast? =
          (Main.convertSection s ++ bigUnits idx).getLast? from by
        rw [show ('零' :: (Main.convertSection s ++ bigUnits idx)) =
            ['零'] ++ (Main.convertSection s ++ bigUnits idx) from by simp]
        rw [List.getLast?_append_of_ne_nil]
        intro he
        exact convertSection_ne_nil s h1 (List.append_eq_nil.1 he).1] at hc
      intro he
      rw [he] at hc
      exact sectBig_getLast s idx hc
    · rw [if_pos h1, if_neg h2] at hc
      intro he
      rw [he] at hc
      exact sectBig_getLast s idx hc
  · rw [if_neg h1] at hc
    by_cases h2 : hh = true
    · rw [if_pos h2] at hc
      rcases bigUnits_cases idx with hu | ⟨u, hu, hu0, _, _⟩
      · rw [hu] at hc; simp at hc
      · rw [hu] at hc
        simp at hc
        rw [hc] at hu0
        exact hu0
    · rw [if_neg h2] at hc; simp at hc

theorem contrib_mem (s : Nat) (hh : Bool) (idx : Nat) (x : Char)
    (hx : x ∈ Main.contrib s hh idx) : x ∈ intChars := by
  have hsec : ∀ y ∈ Main.convertSection s ++ bigUnits idx, y ∈ intChars := by
    intro y hy
    rw [List.mem_append] at hy
    rcases hy with hy | hy
    · have := convertSection_mem s y hy
      rw [intChars, List.mem_append]
      exact Or.inl this
    · rcases bigUnits_cases idx with hu | ⟨u, hu, _, hmem, _⟩
      · rw [hu] at hy; simp at hy
      · rw [hu] at hy; simp at hy; rw [hy]; exact hmem
  unfold Main.contrib at hx
  by_cases h1 : 0 < s
  · by_cases h2 : hh = true ∧ s < 1000
    · rw [if_pos h1, if_pos h2] at hx
      rcases List.mem_cons.1 hx with hx | hx
      · rw [hx]; decide
      · exact hsec x hx
    · rw [if_pos h1, if_neg h2] at hx
      exact hsec x hx
  · rw [if_neg h1] at hx
    by_cases h2 : hh = true
    · rw [if_pos h2] at hx
      rcases bigUnits_cases idx with hu | ⟨u, hu, _, hmem, _⟩
      · rw [hu] at hx; simp at hx
      · rw [hu] at hx; simp at hx; rw [hx]; exact hmem
    · rw [if_neg h2] at hx; simp at hx

theorem assembleRev_getLast :
    ∀ (secs : List Nat) (idx : Nat) (c : Char),
      (Main.assembleRev secs idx).getLast? = some c → c ≠ '零' := by
  intro secs
  induction secs with
  | nil => intro idx c hc; simp [Main.assembleRev] at hc
  | cons s rest ih =>
    intro idx c hc
    rw [show Main.assembleRev (s :: rest) idx =
        Main.assembleRev rest (idx + 1) ++
          Main.contrib s (!rest.isEmpty) idx from rfl] at hc
    by_cases hC : Main.contrib s (!rest.isEmpty) idx = []
    · rw [hC, List.append_nil] at hc
      exact ih (idx + 1) c hc
    · rw [List.getLast?_append_of_ne_nil _ hC] at hc
      exact contrib_getLast s _ idx c hc

theorem assembleRev_chainOk :
    ∀ (secs : List Nat) (idx : Nat), chainOk (Main.assembleRev secs idx) = true := by
  intro secs
  induction secs with
  | nil => intro idx; rfl
  | cons s rest ih =>
    intro idx
    rw [show Main.assembleRev (s :: rest) idx =
        Main.assembleRev rest (idx + 1) ++
          Main.contrib s (!rest.isEmpty) idx from rfl]
    refine noPair_append bothBad _ _ (ih (idx + 1)) (contrib_chainOk s _ idx) ?_
    intro x y hx _
    exact bothBad_false_left x y (assembleRev_getLast rest (idx + 1) x hx)

theorem assembleRev_mem :
    ∀ (secs : List Nat) (idx : Nat) (x : Char),
      x ∈ Main.assembleRev secs idx → x ∈ intChars := by
  intro secs
  induction secs with
  | nil => intro idx x hx; simp [Main.assembleRev] at hx
  | cons s rest ih =>
    intro idx x hx
    rw [show Main.assembleRev (s :: rest) idx =
        Main.assembleRev rest (idx + 1) ++
          Main.contrib s (!rest.isEmpty) idx from rfl] at hx
    rw [List.mem_append] at hx
    rcases hx with hx | hx
    · exact ih (idx + 1) x hx
    · exact contrib_mem s _ idx x hx

theorem assembleRev_head :
    ∀ (secs : List Nat) (idx : Nat), secs ≠ [] → secs.getLast? ≠ some 0 →
      ∃ c, (Main.assembleRev secs idx).head? = some c ∧
        c ≠ '零' ∧ c ≠ '萬' ∧ c ≠ '億' := by
  intro secs
  induction secs with
  | nil => intro idx h _; exact absurd rfl h
  | cons s rest ih =>
    intro idx _ hlast
    match rest with
    | [] =>
      have hs : s ≠ 0 := by
        intro he
        subst he
        exact hlast rfl
      have hspos : 0 < s := Nat.pos_of_ne_zero hs
      rw [show Main.assembleRev [s] idx = Main.contrib s false idx from by
        simp [Main.assembleRev]]
      rw [show Main.contrib s false idx = Main.convertSection s ++ bigUnits idx from by
        simp [Main.contrib, hspos]]
      obtain ⟨d, hd1, hd9, hd⟩ := convertSection_head s hspos
      refine ⟨Main.digitMap d, ?_, digitMap_ne_zero d hd1 hd9,
        digitMap_ne d '萬' (by decide), digitMap_ne d '億' (by decide)⟩
      rw [List.head?_append_of_ne_nil _ (convertSection_ne_nil s hspos)]
      exact hd
    | r1 :: r2 =>
      have hlast2 : (r1 :: r2).getLast? ≠ some 0 := by
        rwa [List.getLast?_cons_cons] at hlast
      obtain ⟨c, hc, hc0, hc1, hc2⟩ := ih (idx + 1) (by simp) hlast2
      refine ⟨c, ?_, hc0, hc1, hc2⟩
      rw [show Main.assembleRev (s :: r1 :: r2) idx =
          Main.assembleRev (r1 :: r2) (idx + 1) ++
            Main.contrib s (!(r1 :: r2).isEmpty) idx from rfl]
      rw [List.head?_append_of_ne_nil]
      · exact hc
      · intro he
        rw [he] at hc
        simp at hc

theorem convertIntegerL_eq (n : Nat) (h : 0 < n) :
    Main.convertIntegerL n = Main.assembleRev (sectionsLE n) 0 := by
  rw [convertIntegerL_cleanup n h]
  refine cleanup_id _ (assembleRev_chainOk _ 0) ?_
  intro hc
  exact assembleRev_getLast _ 0 '零' hc rfl

theorem convertIntegerL_chainOk (n : Nat) : chainOk (Main.convertIntegerL n) = true := by
  rcases Nat.eq_zero_or_pos n with h0 | hpos
  · subst h0; decide
  · rw [convertIntegerL_eq n hpos]
    exact assembleRev_chainOk _ 0

theorem convertIntegerL_mem (n : Nat) (x : Char)
    (hx : x ∈ Main.convertIntegerL n) : x ∈ intChars := by
  rcases Nat.eq_zero_or_pos n with h0 | hpos
  · subst h0
    simp [Main.convertIntegerL] at hx
    rw [hx]; decide
  · rw [convertIntegerL_eq n hpos] at hx
    exact assembleRev_mem _ 0 x hx

theorem convertIntegerL_head (n : Nat) (h : 0 < n) :
    ∃ c, (Main.convertIntegerL n).head? = some c ∧
      c ≠ '零' ∧ c ≠ '萬' ∧ c ≠ '億' := by
  rw [convertIntegerL_eq n h]
  refine assembleRev_head _ 0 ?_ ?_
  · intro he
    rw [sectionsLE_nil_iff] at he
    omega
  · exact radixLE_getLast_ne_zero 10000 (by omega) n h

theorem convertIntegerL_ne_nil (n : Nat) : Main.convertIntegerL n ≠ [] := by
  rcases Nat.eq_zero_or_pos n with h0 | hpos
  · subst h0; simp [Main.convertIntegerL]
  · obtain ⟨c, hc, _⟩ := convertIntegerL_head n hpos
    intro he
    rw [he] at hc
    simp at hc

/-! ### Digit characters, canonical inputs and the pattern -/

theorem digitChar_val (d : Nat) (h : d < 10) : digitVal (digitChar d) = d := by
  interval_cases d <;> decide

theorem digitChar_not_skippable (d : Nat) (h : d < 10) :
    isSkippable (digitChar d) = false := by
  interval_cases d <;> decide

theorem digitChar_isDigit (d : Nat) (h : d < 10) : (digitChar d).isDigit = true := by
  interval_cases d <;> decide

theorem digitChar_ne_minus (d : Nat) (h : d < 10) : digitChar d ≠ '-' := by
  interval_cases d <;> decide

theorem digitChar_eq_zero_iff (d : Nat) (h : d < 10) : digitChar d = '0' ↔ d = 0 := by
  interval_cases d <;> simp_all <;> decide

theorem natToString_spec (n : Nat) :
    ∃ ds : List Char, (natToString n).data = ds ∧ ds ≠ [] ∧
      (∀ c ∈ ds, c.isDigit = true ∧ isSkippable c = false ∧ c ≠ '-') ∧
      natOfDigits ds = n := by
  rcases Nat.eq_zero_or_pos n with h0 | hpos
  · subst h0
    exact ⟨['0'], rfl, by simp, by decide, by decide⟩
  · refine ⟨(digitsBE n).map digitChar, ?_, ?_, ?_, ?_⟩
    · rw [natToString, if_neg (by omega)]
    · obtain ⟨d, rest, hcons, _, _, _⟩ := digitsBE_pos n hpos
      rw [hcons]
      simp
    · intro c hc
      rw [List.mem_map] at hc
      obtain ⟨d, hd, hdc⟩ := hc
      have hd10 : d < 10 := digitsBE_mem_lt n d hd
      subst hdc
      exact ⟨digitChar_isDigit d hd10, digitChar_not_skippable d hd10,
        digitChar_ne_minus d hd10⟩
    · rw [natOfDigits, List.map_map]
      rw [show (digitsBE n).map (digitVal ∘ digitChar) = digitsBE n from by
        refine List.map_congr_left ?_ |>.trans (List.map_id _)
        intro d hd
        exact digitChar_val d (digitsBE_mem_lt n d hd)]
      exact fromBE_digitsBE n

theorem stripChars_id (l : List Char) (h : ∀ c ∈ l, isSkippable c = false) :
    stripChars l = l := by
  rw [stripChars, List.filter_eq_self]
  intro c hc
  rw [h c hc]
  rfl

theorem span_append (p : Char → Bool) :
    ∀ (a b : List Char), (∀ x ∈ a, p x = true) →
      (∀ y, b.head? = some y → p y = false) →
      (a ++ b).takeWhile p = a ∧ (a ++ b).dropWhile p = b := by
  intro a
  induction a with
  | nil =>
    intro b _ hb
    match b with
    | [] => exact ⟨rfl, rfl⟩
    | y :: b2 =>
      have := hb y rfl
      constructor
      · simp [List.takeWhile_cons, this]
      · simp [List.dropWhile_cons, this]
  | cons x a2 ih =>
    intro b ha hb
    have hx : p x = true := ha x (by simp)
    obtain ⟨h1, h2⟩ := ih b (fun z hz => ha z (by simp [hz])) hb
    constructor
    · simp [List.takeWhile_cons, hx, h1]
    · simp [List.dropWhile_cons, hx, h2]

theorem parseAmount_nil : parseAmount [] = none := rfl

theorem parseAmount_some_ne_nil (l : List Char) (v : Bool × List Char × Option (List Char))
    (h : parseAmount l = some v) : l ≠ [] := by
  intro he
  rw [he, parseAmount_nil] at h
  exact Option.noConfusion h

theorem parseAmount_digits (ds : List Char) (hne : ds ≠ [])
    (hdig : ∀ c ∈ ds, c.isDigit = true ∧ c ≠ '-') :
    parseAmount ds = some (false, ds, none) := by
  obtain ⟨c0, rest0, hcons⟩ := List.exists_cons_of_ne_nil hne
  have hhead : ds.head? = some c0 := by rw [hcons]; rfl
  have hc0 : c0 ≠ '-' := (hdig c0 (by rw [hcons]; simp)).2
  have hcond : ¬(ds.head? = some '-') := by
    rw [hhead]
    simp [hc0]
  have hnegf : (decide (ds.head? = some '-')) = false := decide_eq_false hcond
  have hspan := span_append Char.isDigit ds []
    (fun x hx => (hdig x hx).1) (fun y hy => by simp at hy)
  rw [List.append_nil] at hspan
  rw [parseAmount]
  simp only [hnegf, if_neg hcond, hspan.1, hspan.2, if_neg hne]

theorem parseAmount_digits_frac (ds fs : List Char) (hne : ds ≠ [])
    (hdig : ∀ c ∈ ds, c.isDigit = true ∧ c ≠ '-')
    (hf : ∀ c ∈ fs, c.isDigit = true) (hlen : fs.length ≤ 2) :
    parseAmount (ds ++ '.' :: fs) = some (false, ds, some fs) := by
  obtain ⟨c0, rest0, hcons⟩ := List.exists_cons_of_ne_nil hne
  have hhead : (ds ++ '.' :: fs).head? = some c0 := by rw [hcons]; rfl
  have hc0 : c0 ≠ '-' := (hdig c0 (by rw [hcons]; simp)).2
  have hcond : ¬((ds ++ '.' :: fs).head? = some '-') := by
    rw [hhead]
    simp [hc0]
  have hnegf : (decide ((ds ++ '.' :: fs).head? = some '-')) = false := decide_eq_false hcond
  have hspan := span_append Char.isDigit ds ('.' :: fs)
    (fun x hx => (hdig x hx).1) (fun y hy => by
      simp only [List.head?_cons, Option.some.injEq] at hy
      subst hy
      decide)
  rw [parseAmount]
  simp only [hnegf, if_neg hcond, hspan.1, hspan.2, if_neg hne]
  rw [if_pos ⟨trivial, hlen, by rw [List.all_eq_true]; exact fun x hx => hf x hx⟩]

/-! ### Branch behaviour of the main converter -/

theorem convert_empty (s : String) (h : stripChars s.data = []) :
    Main.convertToChequeFormat s = "請輸入金額" := by
  simp only [Main.convertToChequeFormat, h]
  rfl

theorem convert_badformat (s : String) (h1 : stripChars s.data ≠ [])
    (h2 : parseAmount (stripChars s.data) = none) :
    Main.convertToChequeFormat s = "輸入格式錯誤（請輸入有效數字）" := by
  simp only [Main.convertToChequeFormat, if_neg h1, h2]

theorem convert_negative (s : String) (neg : Bool) (ds : List Char)
    (frac : Option (List Char))
    (hp : parseAmount (stripChars s.data) = some (neg, ds, frac))
    (hneg : neg = true) (hpos : 0 < centsOf ds frac) :
    Main.convertToChequeFormat s = "不支持負數" := by
  simp only [Main.convertToChequeFormat, hp, if_neg (parseAmount_some_ne_nil _ _ hp)]
  rw [if_pos ⟨hneg, hpos⟩]

theorem convert_toolarge (s : String) (neg : Bool) (ds : List Char)
    (frac : Option (List Char))
    (hp : parseAmount (stripChars s.data) = some (neg, ds, frac))
    (hnn : ¬(neg = true ∧ 0 < centsOf ds frac))
    (hbig : 99999999999999 < centsOf ds frac) :
    Main.convertToChequeFormat s = "金額過大（最大支持 999,999,999,999.99）" := by
  simp only [Main.convertToChequeFormat, hp, if_neg (parseAmount_some_ne_nil _ _ hp)]
  rw [if_neg hnn, if_pos hbig]

theorem convert_zero (s : String) (neg : Bool) (ds : List Char)
    (frac : Option (List Char))
    (hp : parseAmount (stripChars s.data) = some (neg, ds, frac))
    (hnn : ¬(neg = true ∧ 0 < centsOf ds frac))
    (hz : centsOf ds frac = 0) :
    Main.convertToChequeFormat s = "零圓整" := by
  simp only [Main.convertToChequeFormat, hp, if_neg (parseAmount_some_ne_nil _ _ hp)]
  rw [if_neg hnn, if_neg (by omega : ¬99999999999999 < centsOf ds frac), if_pos hz]

theorem secChars_sub_okChars (x : Char) (hx : x ∈ secChars) : x ∈ okChars := by
  rw [okChars, intChars]
  simp only [List.mem_append]
  exact Or.inl (Or.inl hx)

theorem intChars_sub_okChars (x : Char) (hx : x ∈ intChars) : x ∈ okChars := by
  rw [okChars]
  simp only [List.mem_append]
  exact Or.inl hx

theorem convert_success (s : String) (neg : Bool) (ds : List Char)
    (frac : Option (List Char))
    (hp : parseAmount (stripChars s.data) = some (neg, ds, frac))
    (hnn : ¬(neg = true ∧ 0 < centsOf ds frac))
    (hpos : 0 < centsOf ds frac) (hle : centsOf ds frac ≤ 99999999999999) :
    ∃ tail,
      Main.convertToChequeFormat s =
        String.mk (Main.convertIntegerL (natOfDigits ds) ++ '圓' :: tail) ∧
      (∀ x ∈ tail, x ∈ okChars) ∧
      (frac = none → tail = ['整']) ∧
      (∀ a b : Char, frac = some [a, b] →
        tail = (if a ≠ '0' then
            Main.digitMap (digitVal a) :: '角' ::
              (if b ≠ '0' then [Main.digitMap (digitVal b), '分'] else [])
          else if b ≠ '0' then ['零', Main.digitMap (digitVal b), '分'] else [])) := by
  simp only [Main.convertToChequeFormat, hp, if_neg (parseAmount_some_ne_nil _ _ hp)]
  rw [if_neg hnn, if_neg (by omega : ¬99999999999999 < centsOf ds frac),
    if_neg (by omega : ¬centsOf ds frac = 0)]
  match frac with
  | none =>
    refine ⟨['整'], ?_, ?_, fun _ => rfl, ?_⟩
    · show String.mk ((Main.convertIntegerL (natOfDigits ds) ++ ['圓']) ++ ['整']) = _
      congr 1
      simp
    · intro x hx
      simp at hx
      rw [hx]; decide
    · intro a b hab
      exact absurd hab (by simp)
  | some [] =>
    refine ⟨['整'], ?_, ?_, fun h => absurd h (by simp), ?_⟩
    · show String.mk ((Main.convertIntegerL (natOfDigits ds) ++ ['圓']) ++ ['整']) = _
      congr 1
      simp
    · intro x hx
      simp at hx
      rw [hx]; decide
    · intro a b hab
      simp at hab
  | some (f1 :: fs) =>
    dsimp only
    by_cases h1 : f1 ≠ '0'
    · by_cases h2 : fs.headD '0' ≠ '0'
      · refine ⟨Main.digitMap (digitVal f1) :: '角' ::
          [Main.digitMap (digitVal (fs.headD '0')), '分'], ?_, ?_,
          fun h => absurd h (by simp), ?_⟩
        · rw [if_pos h1, if_pos h2]
          show String.mk ((Main.convertIntegerL (natOfDigits ds) ++ ['圓']) ++ _) = _
          congr 1
          simp
        · intro x hx
          simp only [List.mem_cons, List.not_mem_nil, or_false] at hx
          rcases hx with h | h | h | h <;> rw [h]
          · exact secChars_sub_okChars _ (digitMap_mem_secChars _)
          · decide
          · exact secChars_sub_okChars _ (digitMap_mem_secChars _)
          · decide
        · intro a b hab
          simp only [Option.some.injEq, List.cons.injEq] at hab
          obtain ⟨ha, hb⟩ := hab
          subst ha
          have hbd : fs.headD '0' = b := by rw [hb]; rfl
          rw [hbd] at h2 ⊢
          rw [if_pos h1, if_pos h2]
      · refine ⟨[Main.digitMap (digitVal f1), '角'], ?_, ?_,
          fun h => absurd h (by simp), ?_⟩
        · rw [if_pos h1, if_neg h2]
          show String.mk ((Main.convertIntegerL (natOfDigits ds) ++ ['圓']) ++ _) = _
          congr 1
          simp
        · intro x hx
          simp only [List.mem_cons, List.not_mem_nil, or_false] at hx
          rcases hx with h | h <;> rw [h]
          · exact secChars_sub_okChars _ (digitMap_mem_secChars _)
          · decide
        · intro a b hab
          simp only [Option.some.injEq, List.cons.injEq] at hab
          obtain ⟨ha, hb⟩ := hab
          subst ha
          have hbd : fs.headD '0' = b := by rw [hb]; rfl
          rw [hbd] at h2
          rw [if_pos h1, if_neg h2]
    · by_cases h2 : fs.headD '0' ≠ '0'
      · refine ⟨['零', Main.digitMap (digitVal (fs.headD '0')), '分'], ?_, ?_,
          fun h => absurd h (by simp), ?_⟩
        · rw [if_neg h1, if_pos h2]
          show String.mk ((Main.convertIntegerL (natOfDigits ds) ++ ['圓']) ++ _) = _
          congr 1
          simp
        · intro x hx
          simp only [List.mem_cons, List.not_mem_nil, or_false] at hx
          rcases hx with h | h | h <;> rw [h]
          · decide
          · exact secChars_sub_okChars _ (digitMap_mem_secChars _)
          · decide
        · intro a b hab
          simp only [Option.some.injEq, List.cons.injEq] at hab
          obtain ⟨ha, hb⟩ := hab
          subst ha
          have hbd : fs.headD '0' = b := by rw [hb]; rfl
          rw [hbd] at h2 ⊢
          rw [if_neg h1, if_pos h2]
      · refine ⟨[], ?_, ?_, fun h => absurd h (by simp), ?_⟩
        · rw [if_neg h1, if_neg h2]
          show String.mk ((Main.convertIntegerL (natOfDigits ds) ++ ['圓']) ++ []) = _
          congr 1
          simp
        · intro x hx
          simp at hx
        · intro a b hab
          simp only [Option.some.injEq, List.cons.injEq] at hab
          obtain ⟨ha, hb⟩ := hab
          subst ha
          have hbd : fs.headD '0' = b := by rw [hb]; rfl
          rw [hbd] at h2
          rw [if_neg h1, if_neg h2]

/-! ### Output on canonical amount strings -/

theorem convert_amount (c : Nat) (hc : c ≤ 99999999999999) :
    (Main.convertToChequeFormat (amountToString c)).data =
      Main.convertIntegerL (c / 100) ++ '圓' :: Main.fracL (c % 100) := by
  obtain ⟨ds, hdata, hne, hchars, hval⟩ := natToString_spec (c / 100)
  by_cases hmod : c % 100 = 0
  · have hstr : amountToString c = natToString (c / 100) := by
      rw [amountToString, if_pos hmod]
    have hstrip : stripChars (amountToString c).data = ds := by
      rw [hstr, hdata]
      exact stripChars_id ds (fun x hx => (hchars x hx).2.1)
    have hp : parseAmount (stripChars (amountToString c).data) = some (false, ds, none) := by
      rw [hstrip]
      exact parseAmount_digits ds hne (fun x hx => ⟨(hchars x hx).1, (hchars x hx).2.2⟩)
    have hcents : centsOf ds none = c := by
      rw [centsOf, hval]
      show c / 100 * 100 + 0 = c
      omega
    rcases Nat.eq_zero_or_pos c with h0 | hcpos
    · subst h0
      rw [convert_zero _ false ds none hp (by simp) (by rw [hcents])]
      decide
    · have hnn : ¬((false : Bool) = true ∧ 0 < centsOf ds none) := by simp
      obtain ⟨tail, hout, _, hnonetail, _⟩ :=
        convert_success _ false ds none hp hnn (by rw [hcents]; exact hcpos)
          (by rw [hcents]; exact hc)
      rw [hout, hnonetail rfl]
      show Main.convertIntegerL (natOfDigits ds) ++ '圓' :: ['整'] = _
      rw [hval, show Main.fracL (c % 100) = ['整'] from by rw [hmod]; rfl]
  · have hk1 : c % 100 / 10 < 10 := by omega
    have hk2 : c % 100 % 10 < 10 := by omega
    have hdataAmt : (amountToString c).data =
        ds ++ '.' :: [digitChar (c % 100 / 10), digitChar (c % 100 % 10)] := by
      rw [amountToString, if_neg hmod]
      show (natToString (c / 100)).data ++ _ = _
      rw [hdata]
    have hstrip : stripChars (amountToString c).data =
        ds ++ '.' :: [digitChar (c % 100 / 10), digitChar (c % 100 % 10)] := by
      rw [hdataAmt]
      refine stripChars_id _ ?_
      intro x hx
      rw [List.mem_append] at hx
      rcases hx with hx | hx
      · exact (hchars x hx).2.1
      · simp only [List.mem_cons, List.not_mem_nil, or_false] at hx
        rcases hx with h | h | h <;> rw [h]
        · decide
        · exact digitChar_not_skippable _ hk1
        · exact digitChar_not_skippable _ hk2
    have hp : parseAmount (stripChars (amountToString c).data) =
        some (false, ds, some [digitChar (c % 100 / 10), digitChar (c % 100 % 10)]) := by
      rw [hstrip]
      refine parseAmount_digits_frac ds _ hne
        (fun x hx => ⟨(hchars x hx).1, (hchars x hx).2.2⟩) ?_ (by simp)
      intro x hx
      simp only [List.mem_cons, List.not_mem_nil, or_false] at hx
      rcases hx with h | h <;> rw [h]
      · exact digitChar_isDigit _ hk1
      · exact digitChar_isDigit _ hk2
    have hfracC : fracCents (some [digitChar (c % 100 / 10), digitChar (c % 100 % 10)]) =
        c % 100 := by
      show digitVal (digitChar (c % 100 / 10)) * 10 + digitVal (digitChar (c % 100 % 10)) = _
      rw [digitChar_val _ hk1, digitChar_val _ hk2]
      omega
    have hcents : centsOf ds (some [digitChar (c % 100 / 10), digitChar (c % 100 % 10)]) = c := by
      rw [centsOf, hval, hfracC]
      omega
    have hcpos : 0 < c := by omega
    have hnn : ¬((false : Bool) = true ∧
        0 < centsOf ds (some [digitChar (c % 100 / 10), digitChar (c % 100 % 10)])) := by simp
    obtain ⟨tail, hout, _, _, htail⟩ :=
      convert_success _ false ds _ hp hnn (by rw [hcents]; exact hcpos)
        (by rw [hcents]; exact hc)
    rw [hout]
    have htl := htail _ _ rfl
    rw [htl, hval]
    show Main.convertIntegerL (c / 100) ++ '圓' :: _ = _
    have htailEq : (if digitChar (c % 100 / 10) ≠ '0' then
        Main.digitMap (digitVal (digitChar (c % 100 / 10))) :: '角' ::
          (if digitChar (c % 100 % 10) ≠ '0' then
            [Main.digitMap (digitVal (digitChar (c % 100 % 10))), '分'] else [])
      else if digitChar (c % 100 % 10) ≠ '0' then
        ['零', Main.digitMap (digitVal (digitChar (c % 100 % 10))), '分'] else []) =
        Main.fracL (c % 100) := by
      rw [Main.fracL, if_neg hmod]
      rw [digitChar_val _ hk1, digitChar_val _ hk2]
      simp only [Ne, digitChar_eq_zero_iff _ hk1, digitChar_eq_zero_iff _ hk2]
      by_cases hj : c % 100 / 10 = 0
      · have hfne : ¬ c % 100 % 10 = 0 := by omega
        simp [hj, hfne]
      · by_cases hf : c % 100 % 10 = 0
        · simp [hj, hf]
        · simp [hj, hf]
    rw [htailEq]

theorem convert_natToString (n : Nat) (hn : n ≤ 999999999999) :
    (Main.convertToChequeFormat (natToString n)).data =
      Main.convertIntegerL n ++ ['圓', '整'] := by
  have h := convert_amount (n * 100) (by omega)
  rw [show amountToString (n * 100) = natToString n from by
    rw [amountToString, if_pos (by omega), Nat.mul_div_cancel n (by omega)]] at h
  rw [h, Nat.mul_div_cancel n (by omega),
    show Main.fracL (n * 100 % 100) = ['整'] from by
      rw [Nat.mul_mod_left]; rfl]

/-! ### Injectivity of the integer conversion -/

theorem append_singleton_inj (x : Char) :
    ∀ (a1 b1 a2 b2 : List Char), x ∉ a1 → x ∉ a2 →
      a1 ++ x :: b1 = a2 ++ x :: b2 → a1 = a2 ∧ b1 = b2 := by
  intro a1
  induction a1 with
  | nil =>
    intro b1 a2 b2 _ hx2 h
    match a2 with
    | [] =>
      simp only [List.nil_append, List.cons.injEq] at h
      exact ⟨rfl, h.2⟩
    | y :: a2' =>
      simp only [List.nil_append, List.cons_append, List.cons.injEq] at h
      exact absurd (List.mem_cons.2 (Or.inl h.1)) hx2
  | cons z a1' ih =>
    intro b1 a2 b2 hx1 hx2 h
    match a2 with
    | [] =>
      simp only [List.cons_append, List.nil_append, List.cons.injEq] at h
      exact absurd (List.mem_cons.2 (Or.inl h.1.symm)) hx1
    | y :: a2' =>
      simp only [List.cons_append, List.cons.injEq] at h
      obtain ⟨hzy, hrest⟩ := h
      subst hzy
      have hx1' : x ∉ a1' := fun hm => hx1 (List.mem_cons.2 (Or.inr hm))
      have hx2' : x ∉ a2' := fun hm => hx2 (List.mem_cons.2 (Or.inr hm))
      obtain ⟨he1, he2⟩ := ih b1 a2' b2 hx1' hx2' hrest
      exact ⟨by rw [he1], he2⟩

theorem wan_not_in_section (s : Nat) : '萬' ∉ Main.convertSection s := by
  intro h
  have := convertSection_mem s _ h
  revert this
  decide

theorem yi_not_in_section (s : Nat) : '億' ∉ Main.convertSection s := by
  intro h
  have := convertSection_mem s _ h
  revert this
  decide

theorem bigUnits_zero : bigUnits 0 = [] := rfl

theorem bigUnits_one : bigUnits 1 = ['萬'] := rfl

theorem bigUnits_two : bigUnits 2 = ['億'] := rfl

theorem contribLow_cases (a : Nat) :
    (a = 0 ∧ Main.contrib a true 0 = []) ∨
    (0 < a ∧ a < 1000 ∧ Main.contrib a true 0 = '零' :: Main.convertSection a) ∨
    (1000 ≤ a ∧ Main.contrib a true 0 = Main.convertSection a) := by
  by_cases h0 : a = 0
  · subst h0
    exact Or.inl ⟨rfl, by simp [Main.contrib, bigUnits_zero]⟩
  · by_cases h1 : a < 1000
    · refine Or.inr (Or.inl ⟨Nat.pos_of_ne_zero h0, h1, ?_⟩)
      simp [Main.contrib, Nat.pos_of_ne_zero h0, h1, bigUnits_zero]
    · refine Or.inr (Or.inr ⟨by omega, ?_⟩)
      simp [Main.contrib, Nat.pos_of_ne_zero h0, h1, bigUnits_zero]

theorem contribMid_eq (b : Nat) :
    Main.contrib b true 1 = Main.contrib b true 0 ++ ['萬'] := by
  rcases contribLow_cases b with ⟨h0, he⟩ | ⟨h1, h2, he⟩ | ⟨h1, he⟩
  · subst h0
    rw [he]
    simp [Main.contrib, bigUnits_one]
  · rw [he]
    simp [Main.contrib, h1, h2, bigUnits_one]
  · rw [he]
    simp [Main.contrib, bigUnits_one]
    rw [if_pos (by omega : 0 < b), if_neg (by omega : ¬ b < 1000)]

theorem wan_not_in_contribLow (a : Nat) : '萬' ∉ Main.contrib a true 0 := by
  rcases contribLow_cases a with ⟨_, he⟩ | ⟨_, _, he⟩ | ⟨_, he⟩ <;> rw [he]
  · simp
  · intro h
    rcases List.mem_cons.1 h with h | h
    · exact absurd h (by decide)
    · exact wan_not_in_section a h
  · exact wan_not_in_section a

theorem yi_not_in_contribLow (a : Nat) : '億' ∉ Main.contrib a true 0 := by
  rcases contribLow_cases a with ⟨_, he⟩ | ⟨_, _, he⟩ | ⟨_, he⟩ <;> rw [he]
  · simp
  · intro h
    rcases List.mem_cons.1 h with h | h
    · exact absurd h (by decide)
    · exact yi_not_in_section a h
  · exact yi_not_in_section a

theorem contribLow_inj (a a' : Nat) (ha : a ≤ 9999) (ha' : a' ≤ 9999)
    (h : Main.contrib a true 0 = Main.contrib a' true 0) : a = a' := by
  have headGood : ∀ m : Nat, 1000 ≤ m → m ≤ 9999 →
      (Main.convertSection m).head? ≠ some '零' := by
    intro m hm1 hm2 hc
    exact (convertSection_head_good m (by omega) '零' hc).1 rfl
  rcases contribLow_cases a with ⟨g0, ge⟩ | ⟨g1, g2, ge⟩ | ⟨g1, ge⟩ <;>
    rcases contribLow_cases a' with ⟨f0, fe⟩ | ⟨f1, f2, fe⟩ | ⟨f1, fe⟩ <;>
      rw [ge, fe] at h
  · omega
  · exact absurd h.symm (List.cons_ne_nil _ _)
  · exact absurd h.symm (convertSection_ne_nil a' (by omega))
  · exact absurd h (List.cons_ne_nil _ _)
  · simp only [List.cons.injEq] at h
    rw [convertSection_inj a a' g1 (by omega) f1 (by omega) h.2]
  · exfalso
    have hh : (Main.convertSection a').head? = some '零' := by
      rw [← h]
      rfl
    exact headGood a' f1 ha' hh
  · exact absurd h (convertSection_ne_nil a (by omega))
  · exfalso
    have hh : (Main.convertSection a).head? = some '零' := by
      rw [h]
      rfl
    exact headGood a g1 ha hh
  · exact convertSection_inj a a' (by omega) ha (by omega) ha' h

theorem assembleRev_one (a : Nat) (ha : 0 < a) :
    Main.assembleRev [a] 0 = Main.convertSection a := by
  rw [show Main.assembleRev [a] 0 = [] ++ Main.contrib a false 0 from rfl]
  simp [Main.contrib, ha, bigUnits_zero]

theorem assembleRev_two (a b : Nat) (hb : 0 < b) :
    Main.assembleRev [a, b] 0 =
      Main.convertSection b ++ '萬' :: Main.contrib a true 0 := by
  rw [show Main.assembleRev [a, b] 0 =
      (([] ++ Main.contrib b false 1) ++ Main.contrib a true 0) from rfl]
  rw [show Main.contrib b false 1 = Main.convertSection b ++ bigUnits 1 from by
    simp [Main.contrib, hb]]
  simp [bigUnits_one]

theorem assembleRev_three (a b c : Nat) (hc : 0 < c) :
    Main.assembleRev [a, b, c] 0 =
      Main.convertSection c ++ '億' ::
        (Main.contrib b true 1 ++ Main.contrib a true 0) := by
  rw [show Main.assembleRev [a, b, c] 0 =
      ((([] ++ Main.contrib c false 2) ++ Main.contrib b true 1) ++
        Main.contrib a true 0) from rfl]
  rw [show Main.contrib c false 2 = Main.convertSection c ++ bigUnits 2 from by
    simp [Main.contrib, hc]]
  simp [bigUnits_two]

theorem convertIntegerL_shape (n : Nat) (hpos : 0 < n) (hle : n ≤ 999999999999) :
    (∃ a, n = a ∧ 0 < a ∧ a ≤ 9999 ∧
      Main.convertIntegerL n = Main.convertSection a) ∨
    (∃ a b, n = a + 10000 * b ∧ a ≤ 9999 ∧ 0 < b ∧ b ≤ 9999 ∧
      Main.convertIntegerL n = Main.convertSection b ++ '萬' :: Main.contrib a true 0) ∨
    (∃ a b c, n = a + 10000 * (b + 10000 * c) ∧ a ≤ 9999 ∧ b ≤ 9999 ∧ 0 < c ∧ c ≤ 9999 ∧
      Main.convertIntegerL n = Main.convertSection c ++ '億' ::
        (Main.contrib b true 1 ++ Main.contrib a true 0)) := by
  have hlen : (sectionsLE n).length ≤ 3 :=
    radixLE_length_le 10000 (by omega) n 3 (by norm_num; omega)
  have hnil : sectionsLE n ≠ [] := fun he => by
    rw [sectionsLE_nil_iff] at he
    omega
  have hlast : (sectionsLE n).getLast? ≠ some 0 :=
    radixLE_getLast_ne_zero 10000 (by omega) n hpos
  have hval : fromSecs (sectionsLE n) = n := fromSecs_sectionsLE n
  have hmem : ∀ s ∈ sectionsLE n, s < 10000 := fun s hs => sectionsLE_mem_lt n s hs
  have hout : Main.convertIntegerL n = Main.assembleRev (sectionsLE n) 0 :=
    convertIntegerL_eq n hpos
  match hsecs : sectionsLE n with
  | [] => exact absurd hsecs hnil
  | [a] =>
    rw [hsecs] at hval hlast hmem hout
    have ha0 : 0 < a := by
      rcases Nat.eq_zero_or_pos a with h0 | h0
      · subst h0; exact absurd rfl hlast
      · exact h0
    refine Or.inl ⟨a, ?_, ha0, by have := hmem a (by simp); omega, ?_⟩
    · rw [← hval]
      show a = a + 10000 * 0
      omega
    · rw [hout, assembleRev_one a ha0]
  | [a, b] =>
    rw [hsecs] at hval hlast hmem hout
    have hb0 : 0 < b := by
      rcases Nat.eq_zero_or_pos b with h0 | h0
      · subst h0
        rw [List.getLast?_cons_cons] at hlast
        exact absurd rfl hlast
      · exact h0
    refine Or.inr (Or.inl ⟨a, b, ?_, by have := hmem a (by simp); omega, hb0,
      by have := hmem b (by simp); omega, ?_⟩)
    · rw [← hval]
      show a + 10000 * (b + 10000 * 0) = a + 10000 * b
      ring_nf
    · rw [hout, assembleRev_two a b hb0]
  | [a, b, c] =>
    rw [hsecs] at hval hlast hmem hout
    have hc0 : 0 < c := by
      rcases Nat.eq_zero_or_pos c with h0 | h0
      · subst h0
        rw [List.getLast?_cons_cons, List.getLast?_cons_cons] at hlast
        exact absurd rfl hlast
      · exact h0
    refine Or.inr (Or.inr ⟨a, b, c, ?_, by have := hmem a (by simp); omega,
      by have := hmem b (by simp); omega, hc0, by have := hmem c (by simp); omega, ?_⟩)
    · rw [← hval]
      show a + 10000 * (b + 10000 * (c + 10000 * 0)) = a + 10000 * (b + 10000 * c)
      ring_nf
    · rw [hout, assembleRev_three a b c hc0]
  | a :: b :: c :: d :: rest =>
    rw [hsecs] at hlen
    simp at hlen

theorem yi_not_in_two_shape (b a : Nat) :
    '億' ∉ Main.convertSection b ++ '萬' :: Main.contrib a true 0 := by
  intro hm
  rw [List.mem_append] at hm
  rcases hm with hm | hm
  · exact yi_not_in_section b hm
  · rcases List.mem_cons.1 hm with hm | hm
    · exact absurd hm (by decide)
    · exact yi_not_in_contribLow a hm

theorem convertIntegerL_inj (n1 n2 : Nat) (h1 : n1 ≤ 999999999999)
    (h2 : n2 ≤ 999999999999) (h : Main.convertIntegerL n1 = Main.convertIntegerL n2) :
    n1 = n2 := by
  rcases Nat.eq_zero_or_pos n1 with hz1 | hp1
  · rcases Nat.eq_zero_or_pos n2 with hz2 | hp2
    · omega
    · exfalso
      obtain ⟨c, hc, hc0, _, _⟩ := convertIntegerL_head n2 hp2
      subst hz1
      rw [← h] at hc
      simp [Main.convertIntegerL] at hc
      exact hc0 hc.symm
  · rcases Nat.eq_zero_or_pos n2 with hz2 | hp2
    · exfalso
      obtain ⟨c, hc, hc0, _, _⟩ := convertIntegerL_head n1 hp1
      subst hz2
      rw [h] at hc
      simp [Main.convertIntegerL] at hc
      exact hc0 hc.symm
    · rcases convertIntegerL_shape n1 hp1 h1 with
        ⟨a, hn, ha0, ha9, he⟩ | ⟨a, b, hn, ha9, hb0, hb9, he⟩ |
          ⟨a, b, c, hn, ha9, hb9, hc0, hc9, he⟩ <;>
      rcases convertIntegerL_shape n2 hp2 h2 with
        ⟨a', hn', ha0', ha9', he'⟩ | ⟨a', b', hn', ha9', hb0', hb9', he'⟩ |
          ⟨a', b', c', hn', ha9', hb9', hc0', hc9', he'⟩ <;>
      rw [he, he'] at h
      · rw [hn, hn']
        exact convertSection_inj a a' ha0 ha9 ha0' ha9' h
      · exfalso
        have : '萬' ∈ Main.convertSection a := by
          rw [h]
          simp
        exact wan_not_in_section a this
      · exfalso
        have : '億' ∈ Main.convertSection a := by
          rw [h]
          simp
        exact yi_not_in_section a this
      · exfalso
        have : '萬' ∈ Main.convertSection a' := by
          rw [← h]
          simp
        exact wan_not_in_section a' this
      · obtain ⟨hb, hlow⟩ := append_singleton_inj '萬' _ _ _ _
          (wan_not_in_section b) (wan_not_in_section b') h
        rw [hn, hn', contribLow_inj a a' ha9 ha9' hlow,
          convertSection_inj b b' hb0 hb9 hb0' hb9' hb]
      · exfalso
        have : '億' ∈ Main.convertSection b ++ '萬' :: Main.contrib a true 0 := by
          rw [h]
          simp
        exact yi_not_in_two_shape b a this
      · exfalso
        have : '億' ∈ Main.convertSection a' := by
          rw [← h]
          simp
        exact yi_not_in_section a' this
      · exfalso
        have : '億' ∈ Main.convertSection b' ++ '萬' :: Main.contrib a' true 0 := by
          rw [← h]
          simp
        exact yi_not_in_two_shape b' a' this
      · obtain ⟨hc, htails⟩ := append_singleton_inj '億' _ _ _ _
          (yi_not_in_section c) (yi_not_in_section c') h
        rw [contribMid_eq b, contribMid_eq b'] at htails
        rw [show (Main.contrib b true 0 ++ ['萬']) ++ Main.contrib a true 0 =
            Main.contrib b true 0 ++ '萬' :: Main.contrib a true 0 from by simp] at htails
        rw [show (Main.contrib b' true 0 ++ ['萬']) ++ Main.contrib a' true 0 =
            Main.contrib b' true 0 ++ '萬' :: Main.contrib a' true 0 from by simp] at htails
        obtain ⟨hbx, hlow⟩ := append_singleton_inj '萬' _ _ _ _
          (wan_not_in_contribLow b) (wan_not_in_contribLow b') htails
        rw [hn, hn', contribLow_inj a a' ha9 ha9' hlow,
          contribLow_inj b b' hb9 hb9' hbx,
          convertSection_inj c c' hc0 hc9 hc0' hc9' hc]

theorem assembleRev_unroll (secs : List Nat) :
    ∀ (k idx : Nat), k ≤ secs.length →
      ∃ low, Main.assembleRev secs idx =
        Main.assembleRev (secs.drop k) (idx + k) ++ low := by
  intro k
  induction k with
  | zero => intro idx _; exact ⟨[], by simp⟩
  | succ k ih =>
    intro idx hk
    obtain ⟨low, hlow⟩ := ih idx (by omega)
    have hne : secs.drop k ≠ [] := by
      intro he
      have := List.drop_eq_nil_iff.1 he
      omega
    obtain ⟨s, rest, hcons⟩ := List.exists_cons_of_ne_nil hne
    have hrest : secs.drop (k + 1) = rest := by
      have := List.drop_drop 1 k secs
      rw [hcons] at this
      simpa using this.symm
    refine ⟨Main.contrib s (!rest.isEmpty) (idx + k) ++ low, ?_⟩
    rw [hlow, hcons]
    rw [show Main.assembleRev (s :: rest) (idx + k) =
        Main.assembleRev rest (idx + k + 1) ++
          Main.contrib s (!rest.isEmpty) (idx + k) from rfl]
    rw [hrest]
    rw [show idx + (k + 1) = idx + k + 1 from by omega]
    simp [List.append_assoc]

set_option maxRecDepth 4096 in
theorem fracL_inj : ∀ k1 : Nat, k1 < 100 → ∀ k2 : Nat, k2 < 100 →
    Main.fracL k1 = Main.fracL k2 → k1 = k2 := by decide

/-! ### The claims -/

/-- Claim C1: the spec says an entirely-zero 4-digit group emits no unit glyph,
and in particular `convert("100000000")` should be 壹億圓整.  The core file's
`convertInteger` emits the bare big unit for an all-zero group whenever a higher
group remains (`result = bigUnits[unitIndex] + result`), and the regex cleanup
does not remove it, so `convertToChequeFormat "100000000"` is 壹億萬圓整 with a
stray 萬.  The test harness's own `convertInteger` returns 壹億 as the spec
demands, so the core file contradicts both the spec and the repository's
harness: a code bug. -/
theorem claim_C1 :
    Main.convertToChequeFormat "100000000" = "壹億萬圓整" ∧
    Csv.convertInteger 100000000 = "壹億" ∧
    ("壹億萬圓整" : String) ≠ "壹億圓整" :=
  ⟨rfl, rfl, by decide⟩

/-- Claim C2: the spec says a present but all-zero fraction still appends 整.
The core file's fractional branch has no `jiao = 0 ∧ fen = 0` case, so
`convertToChequeFormat "1.00"` is 壹圓 with no 整; the test harness's copy has
the case and returns 壹圓整: a code bug in the core file. -/
theorem claim_C2 :
    Main.convertToChequeFormat "1.00" = "壹圓" ∧
    Csv.convertToChequeFormat "1.00" = "壹圓整" ∧
    ("壹圓" : String) ≠ "壹圓整" :=
  ⟨rfl, rfl, by decide⟩

/-- Claim C3 counterexample: the claim says BOTH implementations reject exactly
the inputs above 999,999,999,999.99 with the literal 金額過大（最大支持
999,999,999,999.99）.  The test harness's implementation rejects `"1000000"`
(magnitude 10^6, far below that threshold) as too large, and answers
`"1000000000000"` with a different literal, so the claim is false as stated. -/
theorem claim_C3_counterexample :
    Csv.convertToChequeFormat "1000000" = "超過最大支持金額（99999.99）" ∧
    Csv.convertToChequeFormat "1000000000000" = "超過最大支持金額（99999.99）" ∧
    ("超過最大支持金額（99999.99）" : String) ≠ "金額過大（最大支持 999,999,999,999.99）" :=
  ⟨rfl, rfl, by decide⟩

/-- Claim C3 (amended to the core implementation): `convertToChequeFormat` of
the core file returns the literal 金額過大（最大支持 999,999,999,999.99） for
exactly those inputs that match the numeric pattern, are not rejected as
negative, and whose parsed magnitude exceeds 999,999,999,999.99 (that is,
exceeds 99,999,999,999,999 cents); in particular `"1000000000000"` is so
rejected, and no accepted input at or below the threshold produces that
literal. -/
theorem claim_C3 :
    Main.convertToChequeFormat "1000000000000" =
      "金額過大（最大支持 999,999,999,999.99）" ∧
    ∀ s : String,
      Main.convertToChequeFormat s = "金額過大（最大支持 999,999,999,999.99）" ↔
        ∃ neg ds frac, parseAmount (stripChars s.data) = some (neg, ds, frac) ∧
          ¬(neg = true ∧ 0 < centsOf ds frac) ∧ 99999999999999 < centsOf ds frac := by
  refine ⟨rfl, ?_⟩
  intro s
  constructor
  · intro hout
    by_cases hstrip : stripChars s.data = []
    · rw [convert_empty s hstrip] at hout
      exact absurd hout (by decide)
    · match hp : parseAmount (stripChars s.data) with
      | none =>
        rw [convert_badformat s hstrip hp] at hout
        exact absurd hout (by decide)
      | some (neg, ds, frac) =>
        by_cases hneg : neg = true ∧ 0 < centsOf ds frac
        · rw [convert_negative s neg ds frac hp hneg.1 hneg.2] at hout
          exact absurd hout (by decide)
        · by_cases hbig : 99999999999999 < centsOf ds frac
          · exact ⟨neg, ds, frac, rfl, hneg, hbig⟩
          · by_cases hz : centsOf ds frac = 0
            · rw [convert_zero s neg ds frac hp hneg hz] at hout
              exact absurd hout (by decide)
            · exfalso
              obtain ⟨tail, htail, hchars, _, _⟩ :=
                convert_success s neg ds frac hp hneg (by omega) (by omega)
              rw [htail] at hout
              have hd := congrArg String.data hout
              have hmem : '金' ∈ Main.convertIntegerL (natOfDigits ds) ++ '圓' :: tail := by
                rw [show (String.mk (Main.convertIntegerL (natOfDigits ds) ++
                    '圓' :: tail)).data =
                  Main.convertIntegerL (natOfDigits ds) ++ '圓' :: tail from rfl] at hd
                rw [hd]
                decide
              rw [List.mem_append] at hmem
              rcases hmem with hm | hm
              · have := convertIntegerL_mem _ _ hm
                revert this
                decide
              · rcases List.mem_cons.1 hm with hm | hm
                · exact absurd hm (by decide)
                · have := hchars _ hm
                  revert this
                  decide
  · intro ⟨neg, ds, frac, hp, hnn, hbig⟩
    exact convert_toolarge s neg ds frac hp hnn hbig

/-- Claim C4: for every non-negative integer `n ≤ 999999999999`, the output on
the decimal string of `n` ends in 圓整, never contains two consecutive 零, and
never has a 零 directly before 萬 or 億. -/
theorem claim_C4 (n : Nat) (hn : n ≤ 999999999999) :
    (∃ l, (Main.convertToChequeFormat (natToString n)).data = l ++ ['圓', '整']) ∧
    zeroPairFree (Main.convertToChequeFormat (natToString n)).data = true ∧
    zeroUnitFree (Main.convertToChequeFormat (natToString n)).data = true := by
  have hchar := convert_natToString n hn
  have hchain : chainOk (Main.convertIntegerL n ++ ['圓', '整']) = true := by
    refine noPair_append bothBad _ _ (convertIntegerL_chainOk n) (by decide) ?_
    intro x y _ hy
    simp only [List.head?_cons, Option.some.injEq] at hy
    subst hy
    exact bothBad_false_right x '圓' (by decide) (by decide) (by decide)
  refine ⟨⟨Main.convertIntegerL n, hchar⟩, ?_, ?_⟩
  · rw [hchar]
    exact zeroPairFree_of_chainOk _ hchain
  · rw [hchar]
    exact zeroUnitFree_of_chainOk _ hchain

/-- Witness for C4 at `n = 10001`. -/
theorem claim_C4_witness :
    (∃ l, (Main.convertToChequeFormat (natToString 10001)).data = l ++ ['圓', '整']) ∧
    zeroPairFree (Main.convertToChequeFormat (natToString 10001)).data = true ∧
    zeroUnitFree (Main.convertToChequeFormat (natToString 10001)).data = true :=
  claim_C4 10001 (by decide)

/-- Claim C5 counterexample: `"-0"` matches the pattern and begins with a minus
sign, yet it converts to 零圓整 and not to 不支持負數 (JS `parseFloat("-0")` is
`-0`, and `-0 < 0` is false), so the claim fails as stated. -/
theorem claim_C5_counterexample :
    parseAmount (stripChars (String.data "-0")) = some (true, ['0'], none) ∧
    Main.convertToChequeFormat "-0" = "零圓整" ∧
    ("零圓整" : String) ≠ "不支持負數" :=
  ⟨by decide, rfl, by decide⟩

/-- Claim C5 (amended): every input whose stripped form matches the pattern
with a minus sign AND has nonzero parsed magnitude is rejected verbatim as
不支持負數; in particular `"-5"`. -/
theorem claim_C5 (s : String) (ds : List Char) (frac : Option (List Char))
    (hp : parseAmount (stripChars s.data) = some (true, ds, frac))
    (hpos : 0 < centsOf ds frac) :
    Main.convertToChequeFormat s = "不支持負數" :=
  convert_negative s true ds frac hp rfl hpos

/-- Witness for C5 at `"-5"`. -/
theorem claim_C5_witness :
    parseAmount (stripChars (String.data "-5")) = some (true, ['5'], none) ∧
    0 < centsOf ['5'] none ∧
    Main.convertToChequeFormat "-5" = "不支持負數" :=
  ⟨by decide, by decide, claim_C5 "-5" ['5'] none (by decide) (by decide)⟩

/-- Claim C6: in `convertInteger`, every nonzero group below 1000 with a
nonzero more-significant part gets exactly one 零 placed directly before its
text (the preceding character is never another 零); in particular
`convertToChequeFormat "10001"` is 壹萬零壹圓整. -/
theorem claim_C6 :
    Main.convertToChequeFormat "10001" = "壹萬零壹圓整" ∧
    ∀ n i : Nat, 0 < n → n ≤ 999999999999 →
      0 < n / 10000 ^ i % 10000 → n / 10000 ^ i % 10000 < 1000 →
      0 < n / 10000 ^ (i + 1) →
      ∃ pre post, Main.convertIntegerL n =
        pre ++ '零' :: (Main.convertSection (n / 10000 ^ i % 10000) ++ bigUnits i) ++ post ∧
        pre.getLast? ≠ some '零' := by
  refine ⟨rfl, ?_⟩
  intro n i hn _ hs0 hs1000 hhi
  have hdrop : (sectionsLE n).drop i = sectionsLE (n / 10000 ^ i) :=
    radixLE_drop 10000 (by omega) i n
  have hmpos : 0 < n / 10000 ^ i := by
    rcases Nat.eq_zero_or_pos (n / 10000 ^ i) with h0 | h0
    · rw [h0] at hs0
      simp at hs0
    · exact h0
  have hdiv2 : n / 10000 ^ i / 10000 = n / 10000 ^ (i + 1) := by
    rw [Nat.div_div_eq_div_mul, ← pow_succ]
  have hsucc : sectionsLE (n / 10000 ^ i) =
      (n / 10000 ^ i % 10000) :: sectionsLE (n / 10000 ^ (i + 1)) := by
    rw [sectionsLE_succ _ hmpos, hdiv2]
  have hlen : i ≤ (sectionsLE n).length := by
    by_contra hgt
    have : (sectionsLE n).drop i = [] := List.drop_eq_nil_of_le (by omega)
    rw [hdrop, hsucc] at this
    exact List.cons_ne_nil _ _ this
  obtain ⟨low, hlow⟩ := assembleRev_unroll (sectionsLE n) i 0 hlen
  rw [hdrop, hsucc] at hlow
  rw [show Main.assembleRev
      ((n / 10000 ^ i % 10000) :: sectionsLE (n / 10000 ^ (i + 1))) (0 + i) =
    Main.assembleRev (sectionsLE (n / 10000 ^ (i + 1))) (0 + i + 1) ++
      Main.contrib (n / 10000 ^ i % 10000)
        (!(sectionsLE (n / 10000 ^ (i + 1))).isEmpty) (0 + i) from rfl] at hlow
  have hrest_ne : (!(sectionsLE (n / 10000 ^ (i + 1))).isEmpty) = true := by
    rw [sectionsLE_not_isEmpty]
    simpa using hhi
  rw [hrest_ne] at hlow
  rw [show Main.contrib (n / 10000 ^ i % 10000) true (0 + i) =
      '零' :: (Main.convertSection (n / 10000 ^ i % 10000) ++ bigUnits (0 + i)) from by
    simp [Main.contrib, hs0, hs1000]] at hlow
  refine ⟨Main.assembleRev (sectionsLE (n / 10000 ^ (i + 1))) (0 + i + 1), low, ?_, ?_⟩
  · rw [convertIntegerL_eq n hn, hlow]
    simp [List.append_assoc]
  · intro hc
    exact assembleRev_getLast _ _ '零' hc rfl

/-- Witness for C6's universal part at `n = 10001`, `i = 0`. -/
theorem claim_C6_witness :
    0 < (10001 : Nat) ∧
    ∃ pre post, Main.convertIntegerL 10001 =
      pre ++ '零' :: (Main.convertSection (10001 / 10000 ^ 0 % 10000) ++ bigUnits 0) ++ post ∧
      pre.getLast? ≠ some '零' :=
  ⟨by decide, claim_C6.2 10001 0 (by decide) (by decide) (by decide)
    (by decide) (by decide)⟩

/-- Claim C7: the cleanup of `convertInteger` — collapse runs of 零, delete 零
before 萬/億, strip trailing 零, in that order — is idempotent on every
string. -/
theorem claim_C7 (l : List Char) : cleanup (cleanup l) = cleanup l :=
  cleanup_id (cleanup l) (cleanup_chainOk l) (cleanup_getLast l)

/-- Claim C8: `convertSection 0` is the empty string, and for every
`0 < num ≤ 9999` the result has no two consecutive 零, does not end in 零, and
is nonempty. -/
theorem claim_C8 :
    Main.convertSection 0 = [] ∧
    ∀ num : Nat, num ≤ 9999 → 0 < num →
      zeroPairFree (Main.convertSection num) = true ∧
      (Main.convertSection num).getLast? ≠ some '零' ∧
      Main.convertSection num ≠ [] := by
  refine ⟨rfl, ?_⟩
  intro num _ hpos
  exact ⟨convertSection_zeroPairFree num, convertSection_getLast num,
    convertSection_ne_nil num hpos⟩

/-- Witness for C8's universal part at `num = 1005`. -/
theorem claim_C8_witness :
    zeroPairFree (Main.convertSection 1005) = true ∧
    (Main.convertSection 1005).getLast? ≠ some '零' ∧
    Main.convertSection 1005 ≠ [] :=
  claim_C8.2 1005 (by decide) (by decide)

/-- Claim C9: the conversion is injective on representable amounts: two
distinct amounts (in cents, at most 99,999,999,999,999 = 999,999,999,999.99)
written canonically always produce different outputs. -/
theorem claim_C9 (c1 c2 : Nat) (h12 : c1 < c2) (h2 : c2 ≤ 99999999999999) :
    Main.convertToChequeFormat (amountToString c1) ≠
      Main.convertToChequeFormat (amountToString c2) := by
  intro heq
  have hd := congrArg String.data heq
  rw [convert_amount c1 (by omega), convert_amount c2 h2] at hd
  have hy1 : '圓' ∉ Main.convertIntegerL (c1 / 100) := fun hm => by
    have := convertIntegerL_mem _ _ hm
    revert this
    decide
  have hy2 : '圓' ∉ Main.convertIntegerL (c2 / 100) := fun hm => by
    have := convertIntegerL_mem _ _ hm
    revert this
    decide
  obtain ⟨hint, hfrac⟩ := append_singleton_inj '圓' _ _ _ _ hy1 hy2 hd
  have he1 : c1 / 100 = c2 / 100 :=
    convertIntegerL_inj _ _ (by omega) (by omega) hint
  have he2 : c1 % 100 = c2 % 100 :=
    fracL_inj _ (by omega) _ (by omega) hfrac
  omega

/-- Witness for C9 at one cent versus two cents. -/
theorem claim_C9_witness :
    (1 : Nat) < 2 ∧ (2 : Nat) ≤ 99999999999999 ∧
    Main.convertToChequeFormat (amountToString 1) ≠
      Main.convertToChequeFormat (amountToString 2) :=
  ⟨by decide, by decide, claim_C9 1 2 (by decide) (by decide)⟩

/-- Claim C10: minus-signed zeros are not rejected as negative — `"-0"`,
`"-0.0"` and `"-0.00"` all convert to 零圓整, because the check compares the
parsed value (negative zero equals zero) rather than the sign character. -/
theorem claim_C10 :
    Main.convertToChequeFormat "-0" = "零圓整" ∧
    Main.convertToChequeFormat "-0.0" = "零圓整" ∧
    Main.convertToChequeFormat "-0.00" = "零圓整" :=
  ⟨rfl, rfl, rfl⟩
